import Mathlib

/-!
Verification development for the bpaotu query/export core
(`bpaotu/query.py` and `bpaotu/biom.py`).

The Python code is shallowly embedded: database tables become lists of
records, SQLAlchemy queries become list transformations, and SQL boolean
expressions over nullable contextual columns are evaluated in three-valued
logic (`Option Bool`, with `none` playing the role of SQL NULL).  External
collaborators (the ontology value resolver used for display, Python's
`str()` of floats and dates, `SampleContext.display_name`,
`util.val_or_empty`) are threaded through as explicit function parameters.
-/

/-- Taxonomy operator of an `{operator, value}` selector
(`'is'` / `'isnot'`; `apply_op_and_val_filter` defaults to `'is'`). -/
inductive TaxOp where
  | isEq
  | isNot
deriving DecidableEq, Repr

/-- An `{operator, value}` dict as used for amplicon, environment and
taxonomy-hierarchy selectors.  `value` may be absent (`None`). -/
structure OpVal where
  operator : TaxOp
  value : Option Nat
deriving DecidableEq, Repr

/-- `TaxonomyFilter` from `query.py`: an optional amplicon selector and the
7-element per-level state vector (entries are `None` or an op/val dict). -/
structure TaxonomyFilter where
  amplicon_filter : Option OpVal
  state_vector : List (Option OpVal)
deriving DecidableEq, Repr

/-- A row of the `OTU` table.  Taxonomy level columns are non-nullable
integer foreign keys into the per-level ontology tables. -/
structure OTURecord where
  id : Nat
  code : String
  amplicon_id : Nat
  kingdom_id : Nat
  phylum_id : Nat
  class_id : Nat
  order_id : Nat
  family_id : Nat
  genus_id : Nat
  species_id : Nat
deriving DecidableEq, Repr

/-- A row of the `SampleOTU` abundance-fact table. -/
structure SampleOTURecord where
  sample_id : Nat
  otu_id : Nat
  count : Nat
deriving DecidableEq, Repr

/-- A dynamically-typed Python value, as stored in a contextual metadata
column of `SampleContext` (floats are modelled as rationals). -/
inductive PyVal where
  | pyNone
  | pyInt (n : Int)
  | pyFloat (q : Rat)
  | pyStr (s : String)
  | pyDate (y m d : Nat)
  | pyList (l : List PyVal)

/-- `v is None` on a Python value. -/
def PyVal.isNoneV : PyVal → Bool
  | PyVal.pyNone => true
  | _ => false

/-- A row of the `SampleContext` table: id, nullable environment id, and
the open-ended contextual metadata columns accessed by name. -/
structure SampleRecord where
  id : Nat
  environment_id : Option Nat
  ctx : String → PyVal

/-- `getattr(SampleContext, name)` on a sample row: the `id` and
`environment_id` columns are routed to their typed fields, anything else
is a contextual metadata column. -/
def sampleAttr (s : SampleRecord) (field : String) : PyVal :=
  if field = "id" then PyVal.pyInt (Int.ofNat s.id)
  else if field = "environment_id" then
    match s.environment_id with
    | Option.none => PyVal.pyNone
    | Option.some n => PyVal.pyInt (Int.ofNat n)
  else s.ctx field

/-- `apply_op_and_val_filter(attr, q, op_and_val)` from `query.py`:
no-op when the selector or its value is absent, otherwise an equality or
inequality filter on the (non-nullable) attribute. -/
def applyOpValFilter {α : Type} (attr : α → Nat) (q : List α) (ov : Option OpVal) : List α :=
  match ov with
  | Option.none => q
  | Option.some v =>
    match v.value with
    | Option.none => q
    | Option.some x =>
      match v.operator with
      | TaxOp.isNot => q.filter (fun r => attr r ≠ x)
      | TaxOp.isEq => q.filter (fun r => attr r = x)

/-- `TaxonomyOptions.hierarchy`: the 7 OTU hierarchy columns in order,
paired with their accessors. -/
def hierarchyAccs : List (String × (OTURecord → Nat)) :=
  [("kingdom_id", fun o => o.kingdom_id),
   ("phylum_id", fun o => o.phylum_id),
   ("class_id", fun o => o.class_id),
   ("order_id", fun o => o.order_id),
   ("family_id", fun o => o.family_id),
   ("genus_id", fun o => o.genus_id),
   ("species_id", fun o => o.species_id)]

/-- `drop_id`: a hierarchy attribute name without its trailing `_id`. -/
def dropId (attr : String) : String := attr.dropRight 3

/-- The 7 hierarchy level names without the `_id` suffix. -/
def hierarchyNames : List String := hierarchyAccs.map (fun p => dropId p.1)

/-- `TaxonomyFilter.apply(q)`: the amplicon filter followed by one
op/val filter per hierarchy level, applied to any query whose rows expose
an OTU (`otuOf`). -/
def TaxonomyFilter.applyQ {α : Type} (tf : TaxonomyFilter) (otuOf : α → OTURecord)
    (q : List α) : List α :=
  (hierarchyAccs.zip tf.state_vector).foldl
    (fun acc p => applyOpValFilter (fun r => p.1.2 (otuOf r)) acc p.2)
    (applyOpValFilter (fun r => (otuOf r).amplicon_id) q tf.amplicon_filter)

/-- `TaxonomyFilter.is_empty`: the amplicon selector is falsy and the
first (kingdom) entry of the state vector is `None`. -/
def TaxonomyFilter.is_empty (tf : TaxonomyFilter) : Bool :=
  tf.amplicon_filter.isNone &&
    (match tf.state_vector.head? with
     | Option.some Option.none => true
     | _ => false)

/-- The database visible to the query layer: the three data tables plus
the ontology category tables (amplicon table and the 7 per-level tables,
each a list of `(id, value)` rows). -/
structure OtuDB where
  otus : List OTURecord
  samples : List SampleRecord
  sampleOTUs : List SampleOTURecord
  amplTable : List (Nat × String)
  levelTables : List (List (Nat × String))

/-- `SampleQuery._build_taxonomy_subquery`: `None` when the taxonomy
filter is empty, otherwise the distinct sample ids having an abundance
fact joined to an OTU matching the taxonomy filter. -/
def buildTaxonomySubquery (db : OtuDB) (tf : TaxonomyFilter) : Option (List Nat) :=
  if tf.is_empty then Option.none
  else
    Option.some
      (((tf.applyQ (fun p => p.2)
          ((db.sampleOTUs.flatMap (fun f => db.otus.map (fun o => (f, o)))).filter
            (fun p => p.2.id = p.1.otu_id))).map
        (fun p => p.1.sample_id)).dedup)

/-- Claim C10: `is_empty()` is true -- and the taxonomy narrowing
subquery is skipped -- iff the amplicon filter is absent and the first
(kingdom) entry of the state vector is `None`, regardless of deeper
levels. -/
theorem c10_thm (tf : TaxonomyFilter) (h7 : tf.state_vector.length = 7) :
    (tf.is_empty = true ↔
      tf.amplicon_filter = Option.none ∧ tf.state_vector.head? = Option.some Option.none) ∧
    (∀ db : OtuDB, buildTaxonomySubquery db tf = Option.none ↔ tf.is_empty = true) := by
  constructor
  · unfold TaxonomyFilter.is_empty
    cases hh : tf.state_vector.head? with
    | none =>
      exfalso
      cases hv : tf.state_vector with
      | nil => rw [hv] at h7; simp at h7
      | cons a l => rw [hv] at hh; simp [List.head?] at hh
    | some x =>
      cases x with
      | none => simp [Option.isNone_iff_eq_none]
      | some ov => simp
  · intro db
    unfold buildTaxonomySubquery
    by_cases h : tf.is_empty = true
    · simp [h]
    · simp [h]

/-- Witness for C10 on a concrete filter: amplicon absent, kingdom entry
`None`, but a deeper level carrying a selector. -/
theorem c10_wit :
    ((TaxonomyFilter.mk Option.none
      [Option.none, Option.some (OpVal.mk TaxOp.isEq (Option.some 3)),
       Option.none, Option.none, Option.none, Option.none, Option.none]).is_empty = true ↔
      (TaxonomyFilter.mk Option.none
      [Option.none, Option.some (OpVal.mk TaxOp.isEq (Option.some 3)),
       Option.none, Option.none, Option.none, Option.none, Option.none]).amplicon_filter = Option.none ∧
      (TaxonomyFilter.mk Option.none
      [Option.none, Option.some (OpVal.mk TaxOp.isEq (Option.some 3)),
       Option.none, Option.none, Option.none, Option.none, Option.none]).state_vector.head? =
        Option.some Option.none) ∧
    (∀ db : OtuDB, buildTaxonomySubquery db
      (TaxonomyFilter.mk Option.none
      [Option.none, Option.some (OpVal.mk TaxOp.isEq (Option.some 3)),
       Option.none, Option.none, Option.none, Option.none, Option.none]) = Option.none ↔
      (TaxonomyFilter.mk Option.none
      [Option.none, Option.some (OpVal.mk TaxOp.isEq (Option.some 3)),
       Option.none, Option.none, Option.none, Option.none, Option.none]).is_empty = true) :=
  c10_thm _ (by decide)

/-- Combination mode of a `ContextualFilter` (`'and'` / `'or'`). -/
inductive CtxMode where
  | conj
  | disj
deriving DecidableEq, Repr

/-- The typed payload of a contextual filter term: one variant per
`ContextualFilterTerm` subclass in `query.py` (dates as (y, m, d)). -/
inductive CtxTermSpec where
  | floatBetween (val_from val_to : Rat)
  | dateBetween (val_from val_to : Nat × Nat × Nat)
  | strContains (val_contains : String)
  | ontoIs (val_is : Int)
  | sampleIdIn (val_is_in : List Int)
deriving DecidableEq, Repr

/-- A successfully constructed contextual filter term: bound field name,
raw operator string, and the typed matching rule. -/
structure CtxTerm where
  field_name : String
  operator : String
  spec : CtxTermSpec
deriving DecidableEq, Repr

/-- `ContextualFilterTerm.complement`: the operator equals `'complement'`. -/
def CtxTerm.complement (t : CtxTerm) : Bool := t.operator == "complement"

/-- SQL `field BETWEEN a AND b` on a float column in three-valued logic:
NULL operand gives NULL (`none`). -/
def sqlBetweenF (v : PyVal) (a b : Rat) : Option Bool :=
  match v with
  | PyVal.pyFloat q => Option.some (decide (a ≤ q ∧ q ≤ b))
  | _ => Option.none

/-- Lexicographic date comparison (ISO dates compare by y, then m, then d). -/
def dateLe (a b : Nat × Nat × Nat) : Bool :=
  a.1 < b.1 || (a.1 = b.1 && (a.2.1 < b.2.1 || (a.2.1 = b.2.1 && a.2.2 ≤ b.2.2)))

/-- SQL `field BETWEEN a AND b` on a date column in three-valued logic. -/
def sqlBetweenD (v : PyVal) (a b : Nat × Nat × Nat) : Option Bool :=
  match v with
  | PyVal.pyDate y m d => Option.some (dateLe a (y, m, d) && dateLe (y, m, d) b)
  | _ => Option.none

/-- Does the first list occur at the head of the second? -/
def listStartsWith : List Char → List Char → Bool
  | [], _ => true
  | _ :: _, [] => false
  | a :: as1, b :: bs => a == b && listStartsWith as1 bs

/-- Does the first list occur contiguously anywhere in the second? -/
def listContainsSub (needle : List Char) : List Char → Bool
  | [] => needle.isEmpty
  | a :: t => listStartsWith needle (a :: t) || listContainsSub needle t

/-- SQL `field LIKE '%needle%'` (the `contains` operator) in three-valued
logic, for a wildcard-free needle. -/
def sqlContainsStr (v : PyVal) (needle : String) : Option Bool :=
  match v with
  | PyVal.pyStr s => Option.some (listContainsSub needle.toList s.toList)
  | _ => Option.none

/-- SQL `field = x` on an integer (ontology id) column in three-valued
logic. -/
def sqlEqInt (v : PyVal) (x : Int) : Option Bool :=
  match v with
  | PyVal.pyInt n => Option.some (decide (n = x))
  | _ => Option.none

/-- SQL `field IN (xs)` in three-valued logic. -/
def sqlInList (v : PyVal) (xs : List Int) : Option Bool :=
  match v with
  | PyVal.pyInt n => Option.some (xs.contains n)
  | _ => Option.none

/-- `get_conditions` of each `ContextualFilterTerm` subclass: the list of
SQL conditions, each evaluated on a sample row. -/
def CtxTerm.get_conditions (t : CtxTerm) : List (SampleRecord → Option Bool) :=
  match t.spec with
  | CtxTermSpec.floatBetween a b => [fun s => sqlBetweenF (sampleAttr s t.field_name) a b]
  | CtxTermSpec.dateBetween a b => [fun s => sqlBetweenD (sampleAttr s t.field_name) a b]
  | CtxTermSpec.strContains v => [fun s => sqlContainsStr (sampleAttr s t.field_name) v]
  | CtxTermSpec.ontoIs v => [fun s => sqlEqInt (sampleAttr s t.field_name) v]
  | CtxTermSpec.sampleIdIn v => [fun s => sqlInList (sampleAttr s t.field_name) v]

/-- SQL `NOT` in three-valued logic (`sqlalchemy.not_`). -/
def sqlNot (v : Option Bool) : Option Bool := v.map (fun b => !b)

/-- `ContextualFilterTerm.conditions`: the underlying conditions, each
negated when the term is a complement term. -/
def CtxTerm.conditions (t : CtxTerm) : List (SampleRecord → Option Bool) :=
  if t.complement then t.get_conditions.map (fun c => fun s => sqlNot (c s))
  else t.get_conditions

/-- `ContextualFilter` from `query.py`: combination mode, optional
environment selector, ordered term list. -/
structure ContextualFilter where
  mode : CtxMode
  environment_filter : Option OpVal
  terms : List CtxTerm

/-- `ContextualFilter.is_empty`: no terms and a falsy environment
selector. -/
def ContextualFilter.is_empty (cf : ContextualFilter) : Bool :=
  cf.terms.isEmpty && cf.environment_filter.isNone

/-- SQL `AND` over a list of conditions in three-valued logic. -/
def sql3AndList (l : List (Option Bool)) : Option Bool :=
  if l.contains (Option.some false) then Option.some false
  else if l.contains Option.none then Option.none
  else Option.some true

/-- SQL `OR` over a list of conditions in three-valued logic. -/
def sql3OrList (l : List (Option Bool)) : Option Bool :=
  if l.contains (Option.some true) then Option.some true
  else if l.contains Option.none then Option.none
  else Option.some false

/-- `apply_environment_filter` as a per-row predicate: absent selector or
absent value is a no-op; otherwise an (in)equality on the nullable
`environment_id` column under SQL NULL semantics. -/
def envKeeps (ef : Option OpVal) (s : SampleRecord) : Bool :=
  match ef with
  | Option.none => true
  | Option.some ov =>
    match ov.value with
    | Option.none => true
    | Option.some v =>
      match s.environment_id with
      | Option.none => false
      | Option.some x =>
        match ov.operator with
        | TaxOp.isNot => decide (x ≠ v)
        | TaxOp.isEq => decide (x = v)

/-- `ContextualFilter.apply` as a per-row predicate: the environment
filter, then the mode reduction over the chained term conditions; a row
is kept when the whole WHERE clause is true.  An empty condition list
(`and_()` / `or_()` with no clauses) is a no-op. -/
def ctxKeeps (cf : ContextualFilter) (s : SampleRecord) : Bool :=
  let conds := (cf.terms.flatMap (fun t => t.conditions)).map (fun c => c s)
  envKeeps cf.environment_filter s &&
    (if conds.isEmpty then true
     else match cf.mode with
       | CtxMode.conj => sql3AndList conds == Option.some true
       | CtxMode.disj => sql3OrList conds == Option.some true)

/-- `ContextualFilter.apply(q)` on any query whose rows expose a sample. -/
def ContextualFilter.applyQ {α : Type} (cf : ContextualFilter) (sampleOf : α → SampleRecord)
    (q : List α) : List α :=
  q.filter (fun r => ctxKeeps cf (sampleOf r))

/-- `SampleQuery._build_contextual_subquery`: `None` when the contextual
filter is empty, otherwise the distinct OTU ids having an abundance fact
joined to a sample matching the contextual filter. -/
def buildContextualSubquery (db : OtuDB) (cf : ContextualFilter) : Option (List Nat) :=
  if cf.is_empty then Option.none
  else
    Option.some
      (((cf.applyQ (fun p => p.2)
          ((db.sampleOTUs.flatMap (fun f => db.samples.map (fun s => (f, s)))).filter
            (fun p => p.2.id = p.1.sample_id))).map
        (fun p => p.1.otu_id)).dedup)

instance : DecidableRel (fun (a b : SampleRecord) => a.id ≤ b.id) :=
  fun a b => Nat.decLe a.id b.id

instance : DecidableRel (fun (a b : OTURecord) => a.id ≤ b.id) :=
  fun a b => Nat.decLe a.id b.id

/-- `SampleQuery.matching_samples`: samples narrowed by the taxonomy
subquery (when present) and the contextual filter, ordered by id. -/
def matching_samples (db : OtuDB) (tf : TaxonomyFilter) (cf : ContextualFilter) :
    List SampleRecord :=
  List.insertionSort (fun a b => a.id ≤ b.id)
    (cf.applyQ (fun s => s)
      (match buildTaxonomySubquery db tf with
       | Option.none => db.samples
       | Option.some ids => db.samples.filter (fun s => ids.contains s.id)))

/-- `SampleQuery.matching_otus`: OTUs narrowed by the contextual subquery
(when present), the taxonomy filter and the optional kingdom restriction,
ordered by id. -/
def matching_otus (db : OtuDB) (tf : TaxonomyFilter) (cf : ContextualFilter)
    (kingdom_id : Option Nat) : List OTURecord :=
  List.insertionSort (fun a b => a.id ≤ b.id)
    (match kingdom_id with
     | Option.none =>
       tf.applyQ (fun o => o)
         (match buildContextualSubquery db cf with
          | Option.none => db.otus
          | Option.some ids => db.otus.filter (fun o => ids.contains o.id))
     | Option.some k =>
       (tf.applyQ (fun o => o)
         (match buildContextualSubquery db cf with
          | Option.none => db.otus
          | Option.some ids => db.otus.filter (fun o => ids.contains o.id))).filter
         (fun o => o.kingdom_id = k))

/-- `SampleQuery.matching_sample_otus`: the OTU x SampleOTU x
SampleContext cross join narrowed to an inner join by the two id
equalities, with both filters applied. -/
def matching_sample_otus (db : OtuDB) (tf : TaxonomyFilter) (cf : ContextualFilter) :
    List (OTURecord × SampleOTURecord × SampleRecord) :=
  cf.applyQ (fun t => t.2.2)
    (tf.applyQ (fun t => t.1)
      (((db.otus.flatMap (fun o =>
          db.sampleOTUs.flatMap (fun f => db.samples.map (fun s => (o, f, s))))).filter
            (fun t => t.1.id = t.2.1.otu_id)).filter
        (fun t => t.2.2.id = t.2.1.sample_id)))

/-- `ContextualFilterTermFloat.__init__`: asserts both bounds are
Python floats, otherwise raises before any query is built. -/
def ContextualFilterTermFloat (field_name operator : String) (val_from val_to : PyVal) :
    Except String CtxTerm :=
  match val_from, val_to with
  | PyVal.pyFloat a, PyVal.pyFloat b =>
    Except.ok (CtxTerm.mk field_name operator (CtxTermSpec.floatBetween a b))
  | _, _ => Except.error "AssertionError"

/-- `ContextualFilterTermDate.__init__`: asserts both bounds are
Python dates. -/
def ContextualFilterTermDate (field_name operator : String) (val_from val_to : PyVal) :
    Except String CtxTerm :=
  match val_from, val_to with
  | PyVal.pyDate y1 m1 d1, PyVal.pyDate y2 m2 d2 =>
    Except.ok (CtxTerm.mk field_name operator (CtxTermSpec.dateBetween (y1, m1, d1) (y2, m2, d2)))
  | _, _ => Except.error "AssertionError"

/-- `ContextualFilterTermString.__init__`: asserts the substring value is
a Python str. -/
def ContextualFilterTermString (field_name operator : String) (val_contains : PyVal) :
    Except String CtxTerm :=
  match val_contains with
  | PyVal.pyStr s =>
    Except.ok (CtxTerm.mk field_name operator (CtxTermSpec.strContains s))
  | _ => Except.error "AssertionError"

/-- `ContextualFilterTermOntology.__init__`: asserts the category value
is a Python int. -/
def ContextualFilterTermOntology (field_name operator : String) (val_is : PyVal) :
    Except String CtxTerm :=
  match val_is with
  | PyVal.pyInt n =>
    Except.ok (CtxTerm.mk field_name operator (CtxTermSpec.ontoIs n))
  | _ => Except.error "AssertionError"

/-- The element-wise `assert(type(t) is int)` loop of
`ContextualFilterTermSampleID.__init__`. -/
def allPyInts : List PyVal → Option (List Int)
  | [] => Option.some []
  | PyVal.pyInt n :: rest => (allPyInts rest).map (fun l => n :: l)
  | _ => Option.none

/-- `ContextualFilterTermSampleID.__init__`: asserts the value is a
Python list whose every element is an int. -/
def ContextualFilterTermSampleID (field_name operator : String) (val_is_in : PyVal) :
    Except String CtxTerm :=
  match val_is_in with
  | PyVal.pyList l =>
    match allPyInts l with
    | Option.some ints =>
      Except.ok (CtxTerm.mk field_name operator (CtxTermSpec.sampleIdIn ints))
    | Option.none => Except.error "AssertionError"
  | _ => Except.error "AssertionError"

/-- Did construction succeed (no assertion raised)? -/
def constructedOk {ε α : Type} : Except ε α → Bool
  | Except.ok _ => true
  | Except.error _ => false

theorem allPyInts_isSome_iff (l : List PyVal) :
    (allPyInts l).isSome = true ↔ ∀ x ∈ l, ∃ n, x = PyVal.pyInt n := by
  induction l with
  | nil => simp [allPyInts]
  | cons a rest ih =>
    cases a with
    | pyInt n =>
      simp only [allPyInts, List.mem_cons]
      constructor
      · intro h
        have hr : (allPyInts rest).isSome = true := by
          cases hh : allPyInts rest with
          | none => rw [hh] at h; simp [Option.map] at h
          | some v => simp
        intro x hx
        rcases hx with hx | hx
        · exact ⟨n, hx⟩
        · exact (ih.mp hr) x hx
      · intro h
        have hr := ih.mpr (fun x hx => h x (Or.inr hx))
        cases hh : allPyInts rest with
        | none => rw [hh] at hr; simp at hr
        | some v => simp [hh, Option.map]
    | pyNone => simp [allPyInts]
    | pyFloat q => simp [allPyInts]
    | pyStr s => simp [allPyInts]
    | pyDate y m d => simp [allPyInts]
    | pyList l2 => simp [allPyInts]

/-- Claim C8: each contextual filter term constructor succeeds iff its
value arguments have exactly the declared Python type (floats for a float
range, dates for a date range, a str for a substring term, an int for an
ontology term, a list of ints for a sample-ID term); any mismatch is
rejected at construction, before any condition or query exists. -/
theorem c8_thm :
    (∀ f op vf vt, constructedOk (ContextualFilterTermFloat f op vf vt) = true ↔
      ((∃ a, vf = PyVal.pyFloat a) ∧ (∃ b, vt = PyVal.pyFloat b))) ∧
    (∀ f op vf vt, constructedOk (ContextualFilterTermDate f op vf vt) = true ↔
      ((∃ y m d, vf = PyVal.pyDate y m d) ∧ (∃ y m d, vt = PyVal.pyDate y m d))) ∧
    (∀ f op v, constructedOk (ContextualFilterTermString f op v) = true ↔
      (∃ s, v = PyVal.pyStr s)) ∧
    (∀ f op v, constructedOk (ContextualFilterTermOntology f op v) = true ↔
      (∃ n, v = PyVal.pyInt n)) ∧
    (∀ f op v, constructedOk (ContextualFilterTermSampleID f op v) = true ↔
      (∃ l, v = PyVal.pyList l ∧ ∀ x ∈ l, ∃ n, x = PyVal.pyInt n)) := by
  refine ⟨?_, ?_, ?_, ?_, ?_⟩
  · intro f op vf vt
    cases vf <;> cases vt <;> simp [ContextualFilterTermFloat, constructedOk]
  · intro f op vf vt
    cases vf <;> cases vt <;> simp [ContextualFilterTermDate, constructedOk]
  · intro f op v
    cases v <;> simp [ContextualFilterTermString, constructedOk]
  · intro f op v
    cases v <;> simp [ContextualFilterTermOntology, constructedOk]
  · intro f op v
    cases v <;> simp only [ContextualFilterTermSampleID, constructedOk]
    case pyNone => simp
    case pyInt n => simp
    case pyFloat q => simp
    case pyStr s => simp
    case pyDate y m d => simp
    case pyList l =>
      constructor
      · intro h
        refine ⟨l, rfl, ?_⟩
        rw [← allPyInts_isSome_iff]
        cases hh : allPyInts l with
        | none => rw [hh] at h; simp at h
        | some v => simp
      · rintro ⟨l2, hl, hall⟩
        cases hl
        have := (allPyInts_isSome_iff l).mpr hall
        cases hh : allPyInts l with
        | none => rw [hh] at this; simp at this
        | some v => simp [hh]

/-- The WHERE-clause value contributed by a single term on one sample:
the 3-valued conjunction of its (possibly negated) conditions. -/
def termEval (t : CtxTerm) (s : SampleRecord) : Option Bool :=
  sql3AndList (t.conditions.map (fun c => c s))

/-- Does a contextual filter consisting of this single term (no
environment selector) keep the sample? -/
def matchesSingle (t : CtxTerm) (s : SampleRecord) : Bool :=
  ctxKeeps (ContextualFilter.mk CtxMode.conj Option.none [t]) s

theorem sql3AndList_single (v : Option Bool) :
    sql3AndList [v] = v := by
  cases v with
  | none => simp [sql3AndList]
  | some b => cases b <;> simp [sql3AndList]

theorem ctxterm_get_conditions_op (f op1 op2 : String) (sp : CtxTermSpec) :
    (CtxTerm.mk f op1 sp).get_conditions = (CtxTerm.mk f op2 sp).get_conditions := by
  cases sp <;> rfl

theorem matchesSingle_eval (t : CtxTerm) (s : SampleRecord) :
    matchesSingle t s = (termEval t s == Option.some true) := by
  unfold matchesSingle ctxKeeps termEval envKeeps
  have hne : ((ContextualFilter.mk CtxMode.conj Option.none [t]).terms.flatMap
      (fun t => t.conditions)).map (fun c => c s) = t.conditions.map (fun c => c s) := by
    simp [List.flatMap]
  rw [hne]
  have : (t.conditions.map (fun c => c s)).isEmpty = false := by
    unfold CtxTerm.conditions CtxTerm.get_conditions
    cases hc : t.complement <;> cases t.spec <;> simp
  simp only [this, Bool.true_and]
  rfl

theorem termEval_single_cond (t : CtxTerm) (s : SampleRecord) (hc : t.complement = false) :
    ∃ c, t.get_conditions = [c] ∧ termEval t s = c s := by
  unfold termEval CtxTerm.conditions
  rw [hc]
  simp only [Bool.false_eq_true, if_false]
  cases hsp : t.spec <;>
    exact ⟨_, by rw [CtxTerm.get_conditions, hsp], by
      rw [CtxTerm.get_conditions, hsp]; simp [sql3AndList_single]⟩

/-- Amended claim C9: a complement term's generated conditions are the
pointwise SQL negations of the non-complement term's conditions; hence on
every sample where the underlying condition is non-NULL, the complement
term matches exactly when the non-complement term does not.  (On a sample
whose field is NULL the condition and its negation are both NULL, and the
sample matches neither term.) -/
theorem c9_thm :
    (∀ (f op : String) (sp : CtxTermSpec) (s : SampleRecord),
      (CtxTerm.mk f "complement" sp).conditions.map (fun c => c s) =
        (CtxTerm.mk f op sp).get_conditions.map (fun c => sqlNot (c s))) ∧
    (∀ (t : CtxTerm) (s : SampleRecord) (b : Bool),
      t.complement = false → termEval t s = Option.some b →
      (matchesSingle (CtxTerm.mk t.field_name "complement" t.spec) s = !b ∧
        matchesSingle t s = b)) := by
  constructor
  · intro f op sp s
    have hcompl : (CtxTerm.mk f "complement" sp).complement = true := by
      simp [CtxTerm.complement]
    unfold CtxTerm.conditions
    rw [hcompl]
    rw [ctxterm_get_conditions_op f "complement" op]
    simp
  · intro t s b hc hev
    obtain ⟨c, hcond, heval⟩ := termEval_single_cond t s hc
    have hcs : c s = Option.some b := by rw [← heval]; exact hev
    constructor
    · rw [matchesSingle_eval]
      have hcompl : (CtxTerm.mk t.field_name "complement" t.spec).complement = true := by
        simp [CtxTerm.complement]
      have hgc : (CtxTerm.mk t.field_name "complement" t.spec).get_conditions =
          t.get_conditions := by
        have : t = CtxTerm.mk t.field_name t.operator t.spec := rfl
        rw [this]
        exact ctxterm_get_conditions_op _ _ _ _
      unfold termEval CtxTerm.conditions
      rw [hcompl]
      simp only [if_true]
      rw [hgc, hcond]
      simp only [List.map_cons, List.map_nil, sql3AndList_single]
      rw [hcs]
      cases b <;> rfl
    · rw [matchesSingle_eval, hev]
      cases b <;> rfl

/-- Concrete term, its complement, and a sample whose field is NULL, for
the C9 counterexample and witness. -/
def c9_plainTerm : CtxTerm := CtxTerm.mk "sformat" "" (CtxTermSpec.strContains "foo")

def c9_complTerm : CtxTerm := CtxTerm.mk "sformat" "complement" (CtxTermSpec.strContains "foo")

def c9_nullSample : SampleRecord := SampleRecord.mk 1 Option.none (fun _ => PyVal.pyNone)

def c9_db : OtuDB := OtuDB.mk [] [c9_nullSample] [] [] []

def c9_emptyTaxFilter : TaxonomyFilter :=
  TaxonomyFilter.mk Option.none
    [Option.none, Option.none, Option.none, Option.none, Option.none, Option.none, Option.none]

/-- Counterexample to claim C9 as stated: with one sample whose field is
NULL, the complement term matches no sample, yet the non-complement term
also matches no sample -- so the complement term's match set is not the
complement of the non-complement term's match set (which would contain
the sample). -/
theorem c9_cex :
    (matching_samples c9_db c9_emptyTaxFilter
        (ContextualFilter.mk CtxMode.conj Option.none [c9_plainTerm])).length = 0 ∧
    (matching_samples c9_db c9_emptyTaxFilter
        (ContextualFilter.mk CtxMode.conj Option.none [c9_complTerm])).length = 0 ∧
    c9_db.samples.length = 1 ∧
    matchesSingle c9_plainTerm c9_nullSample = false ∧
    matchesSingle c9_complTerm c9_nullSample = false := by
  refine ⟨?_, ?_, rfl, ?_, ?_⟩ <;> decide

/-- A sample whose field holds a non-NULL string containing "foo". -/
def c9_fooSample : SampleRecord :=
  SampleRecord.mk 2 Option.none
    (fun f => if f = "sformat" then PyVal.pyStr "xfoox" else PyVal.pyNone)

/-- Witness for C9 at a concrete non-NULL sample: the plain term matches
and its complement does not. -/
theorem c9_wit :
    matchesSingle (CtxTerm.mk c9_plainTerm.field_name "complement" c9_plainTerm.spec)
        c9_fooSample = !true ∧
      matchesSingle c9_plainTerm c9_fooSample = true :=
  c9_thm.2 c9_plainTerm c9_fooSample true (by decide) (by decide)

/-- `ContextualFilterTermBetween.describe`, for the float and date range
term classes.  `dn` is the external `SampleContext.display_name`, `fshow`
and `dshow` are Python's `str()` of a float and of a date.  Complement
renders as `'{}<{},>{}'.format(display_name, val_from, val_to)` and
non-complement as `'{}<={}<={}'.format(val_from, display_name, val_to)`.
Other term classes override `describe` and are not modelled here. -/
def ContextualFilterTermBetween.describe (dn : String → String) (fshow : Rat → String)
    (dshow : Nat × Nat × Nat → String) (t : CtxTerm) : String :=
  match t.spec with
  | CtxTermSpec.floatBetween a b =>
    if t.complement then dn t.field_name ++ "<" ++ fshow a ++ ",>" ++ fshow b
    else fshow a ++ "<=" ++ dn t.field_name ++ "<=" ++ fshow b
  | CtxTermSpec.dateBetween a b =>
    if t.complement then dn t.field_name ++ "<" ++ dshow a ++ ",>" ++ dshow b
    else dshow a ++ "<=" ++ dn t.field_name ++ "<=" ++ dshow b
  | _ => ""

/-- A concrete float `str()` for the C6 counterexample. -/
def c6_fshow (q : Rat) : String := if q = 5 then "5.0" else "7.0"

/-- Counterexample to claim C6 as stated: for the complement term on
field `ph` with bounds 5.0 and 7.0 the code renders `ph<5.0,>7.0` -- the
field name is not repeated before the upper bound, so the claimed string
`ph<5.0,ph>7.0` is not produced. -/
theorem c6_cex :
    ContextualFilterTermBetween.describe (fun x => x) c6_fshow (fun _ => "")
        (CtxTerm.mk "ph" "complement" (CtxTermSpec.floatBetween 5 7)) = "ph<5.0,>7.0" ∧
      ("ph<5.0,>7.0" : String) ≠ "ph<5.0,ph>7.0" := by
  constructor
  · decide
  · decide

/-- Amended claim C6: a between (float or date) term describes as
`from<=field<=to` when non-complement and as `field<from,>to` (with the
display name appearing only once) when complement. -/
theorem c6_thm (dn : String → String) (fshow : Rat → String)
    (dshow : Nat × Nat × Nat → String) (f op : String) (a b : Rat)
    (da db2 : Nat × Nat × Nat) (hop : op ≠ "complement") :
    ContextualFilterTermBetween.describe dn fshow dshow
        (CtxTerm.mk f "complement" (CtxTermSpec.floatBetween a b)) =
      dn f ++ "<" ++ fshow a ++ ",>" ++ fshow b ∧
    ContextualFilterTermBetween.describe dn fshow dshow
        (CtxTerm.mk f op (CtxTermSpec.floatBetween a b)) =
      fshow a ++ "<=" ++ dn f ++ "<=" ++ fshow b ∧
    ContextualFilterTermBetween.describe dn fshow dshow
        (CtxTerm.mk f "complement" (CtxTermSpec.dateBetween da db2)) =
      dn f ++ "<" ++ dshow da ++ ",>" ++ dshow db2 ∧
    ContextualFilterTermBetween.describe dn fshow dshow
        (CtxTerm.mk f op (CtxTermSpec.dateBetween da db2)) =
      dshow da ++ "<=" ++ dn f ++ "<=" ++ dshow db2 := by
  have hcf : (CtxTerm.mk f op (CtxTermSpec.floatBetween a b)).complement = false := by
    simp [CtxTerm.complement]
    exact hop
  have hcd : (CtxTerm.mk f op (CtxTermSpec.dateBetween da db2)).complement = false := by
    simp [CtxTerm.complement]
    exact hop
  refine ⟨?_, ?_, ?_, ?_⟩
  · simp [ContextualFilterTermBetween.describe, CtxTerm.complement]
  · unfold ContextualFilterTermBetween.describe
    rw [hcf]
    simp
  · simp [ContextualFilterTermBetween.describe, CtxTerm.complement]
  · unfold ContextualFilterTermBetween.describe
    rw [hcd]
    simp

/-- Witness for C6 at concrete inputs (operator `''`, field `ph`). -/
theorem c6_wit :
    ContextualFilterTermBetween.describe (fun x => x) c6_fshow (fun _ => "1")
        (CtxTerm.mk "ph" "complement" (CtxTermSpec.floatBetween 5 7)) =
      (fun (x : String) => x) "ph" ++ "<" ++ c6_fshow 5 ++ ",>" ++ c6_fshow 7 ∧
    ContextualFilterTermBetween.describe (fun x => x) c6_fshow (fun _ => "1")
        (CtxTerm.mk "ph" "" (CtxTermSpec.floatBetween 5 7)) =
      c6_fshow 5 ++ "<=" ++ (fun (x : String) => x) "ph" ++ "<=" ++ c6_fshow 7 ∧
    ContextualFilterTermBetween.describe (fun x => x) c6_fshow (fun _ => "1")
        (CtxTerm.mk "ph" "complement" (CtxTermSpec.dateBetween (1, 1, 1) (2, 2, 2))) =
      (fun (x : String) => x) "ph" ++ "<" ++ (fun (_ : Nat × Nat × Nat) => "1") (1, 1, 1) ++
        ",>" ++ (fun (_ : Nat × Nat × Nat) => "1") (2, 2, 2) ∧
    ContextualFilterTermBetween.describe (fun x => x) c6_fshow (fun _ => "1")
        (CtxTerm.mk "ph" "" (CtxTermSpec.dateBetween (1, 1, 1) (2, 2, 2))) =
      (fun (_ : Nat × Nat × Nat) => "1") (1, 1, 1) ++ "<=" ++ (fun (x : String) => x) "ph" ++
        "<=" ++ (fun (_ : Nat × Nat × Nat) => "1") (2, 2, 2) :=
  c6_thm (fun x => x) c6_fshow (fun _ => "1") "ph" "" 5 7 (1, 1, 1) (2, 2, 2) (by decide)

/-- `OntologyInfo.id_to_value`: `None` maps to `None`; otherwise the
`.one()` lookup succeeds only when exactly one ontology row has the id
(zero or several rows raise). -/
def id_to_value (table : List (Nat × String)) (i : Option Nat) : Except Unit (Option String) :=
  match i with
  | Option.none => Except.ok Option.none
  | Option.some v =>
    match table.filter (fun e => e.1 = v) with
    | [e] => Except.ok (Option.some e.2)
    | _ => Except.error ()

/-- Python `repr()` of the optional ontology value (`None` or a quoted
string). -/
def pyReprOptStr : Option String → String
  | Option.none => "None"
  | Option.some s => "\x27" ++ s ++ "\x27"

/-- `OP_DESCR` from `query.py`. -/
def opDescr : TaxOp → String
  | TaxOp.isEq => " is "
  | TaxOp.isNot => " is not "

/-- `describe_op_and_val`: `None` for an absent selector, otherwise
`attr[:-3] + OP_DESCR[op] + repr(id_to_value(cls, value))`. -/
def describe_op_and_val (table : List (Nat × String)) (attr : String) (q : Option OpVal) :
    Except Unit (Option String) :=
  match q with
  | Option.none => Except.ok Option.none
  | Option.some ov =>
    match id_to_value table ov.value with
    | Except.error e => Except.error e
    | Except.ok v => Except.ok (Option.some (dropId attr ++ opDescr ov.operator ++ pyReprOptStr v))

theorem describe_op_and_val_none (table : List (Nat × String)) (attr : String) :
    describe_op_and_val table attr Option.none = Except.ok Option.none := rfl

theorem describe_op_and_val_some (table : List (Nat × String)) (attr : String) (ov : OpVal) :
    describe_op_and_val table attr (Option.some ov) = Except.error () ∨
      ∃ s, describe_op_and_val table attr (Option.some ov) = Except.ok (Option.some s) := by
  cases hi : id_to_value table ov.value with
  | error e =>
    left
    cases e
    simp [describe_op_and_val, hi]
  | ok v =>
    right
    refine ⟨dropId attr ++ opDescr ov.operator ++ pyReprOptStr v, ?_⟩
    simp [describe_op_and_val, hi]

/-- The per-level loop of `TaxonomyFilter.describe`: zip of hierarchy
levels (with their ontology tables) against the state vector, keeping the
non-`None` descriptions. -/
def describeLevels :
    List ((String × (OTURecord → Nat)) × List (Nat × String)) → List (Option OpVal) →
    Except Unit (List String)
  | _, [] => Except.ok []
  | [], _ :: _ => Except.ok []
  | (lv, table) :: rest, q :: qs =>
    match describe_op_and_val table lv.1 q with
    | Except.error e => Except.error e
    | Except.ok d =>
      match describeLevels rest qs with
      | Except.error e => Except.error e
      | Except.ok ds =>
        Except.ok (match d with
          | Option.none => ds
          | Option.some s => s :: ds)

theorem describeLevels_ok_nil_iff
    (pairs : List ((String × (OTURecord → Nat)) × List (Nat × String))) :
    ∀ state : List (Option OpVal),
      describeLevels pairs state = Except.ok [] ↔
        ∀ q ∈ state.take pairs.length, q = Option.none := by
  induction pairs with
  | nil =>
    intro state
    cases state <;> simp [describeLevels]
  | cons p rest ih =>
    intro state
    cases state with
    | nil => simp [describeLevels]
    | cons q qs =>
      obtain ⟨lv, table⟩ := p
      cases q with
      | none =>
        simp only [describeLevels, describe_op_and_val_none, List.length_cons,
          List.take_succ_cons, List.mem_cons]
        cases hr : describeLevels rest qs with
        | error e =>
          simp only []
          constructor
          · intro h
            exact absurd h (by simp)
          · intro h
            have := (ih qs).mpr (fun x hx => h x (Or.inr hx))
            rw [hr] at this
            exact absurd this (by simp)
        | ok ds =>
          simp only []
          constructor
          · intro h
            have hds : ds = [] := by
              cases ds with
              | nil => rfl
              | cons a t => exact absurd h (by simp)
            intro x hx
            rcases hx with hx | hx
            · exact hx
            · exact (ih qs).mp (by rw [hr, hds]) x hx
          · intro h
            have := (ih qs).mpr (fun x hx => h x (Or.inr hx))
            rw [hr] at this
            cases this
            rfl
      | some ov =>
        simp only [describeLevels, List.length_cons, List.take_succ_cons, List.mem_cons]
        constructor
        · intro h
          exfalso
          rcases describe_op_and_val_some table lv.1 ov with he | ⟨s, hs⟩
          · rw [he] at h
            exact absurd h (by simp)
          · rw [hs] at h
            cases hr : describeLevels rest qs with
            | error e =>
              rw [hr] at h
              exact absurd h (by simp)
            | ok ds =>
              rw [hr] at h
              simp at h
        · intro h
          exact absurd (h (Option.some ov) (Or.inl rfl)) (by simp)

/-- `TaxonomyFilter.describe`: the amplicon description and the list of
per-level descriptions for the levels with an active selector. -/
def TaxonomyFilter.describe (db : OtuDB) (tf : TaxonomyFilter) :
    Except Unit (Option String × List String) :=
  match describe_op_and_val db.amplTable "amplicon_id" tf.amplicon_filter with
  | Except.error e => Except.error e
  | Except.ok ampl =>
    match describeLevels (hierarchyAccs.zip db.levelTables) tf.state_vector with
    | Except.error e => Except.error e
    | Except.ok descrs => Except.ok (ampl, descrs)

/-- Claim C5: `describe` returns `(None, [])` iff the taxonomy filter is
empty -- no amplicon selector and no hierarchy level selected. -/
theorem c5_thm (db : OtuDB) (tf : TaxonomyFilter) (h7 : tf.state_vector.length = 7)
    (ht : db.levelTables.length = 7) :
    TaxonomyFilter.describe db tf = Except.ok (Option.none, []) ↔
      (tf.amplicon_filter = Option.none ∧ ∀ x ∈ tf.state_vector, x = Option.none) := by
  have hlen : (hierarchyAccs.zip db.levelTables).length = 7 := by
    rw [List.length_zip, ht]
    rfl
  have htake : List.take (hierarchyAccs.zip db.levelTables).length tf.state_vector =
      tf.state_vector := by
    rw [hlen, ← h7]
    exact List.take_length _
  constructor
  · intro h
    unfold TaxonomyFilter.describe at h
    cases haf : tf.amplicon_filter with
    | some ov =>
      rw [haf] at h
      exfalso
      rcases describe_op_and_val_some db.amplTable "amplicon_id" ov with he | ⟨s, hs⟩
      · rw [he] at h
        exact absurd h (by simp)
      · rw [hs] at h
        cases hr : describeLevels (hierarchyAccs.zip db.levelTables) tf.state_vector with
        | error e =>
          rw [hr] at h
          exact absurd h (by simp)
        | ok ds =>
          rw [hr] at h
          simp at h
    | none =>
      rw [haf, describe_op_and_val_none] at h
      cases hr : describeLevels (hierarchyAccs.zip db.levelTables) tf.state_vector with
      | error e =>
        rw [hr] at h
        exact absurd h (by simp)
      | ok ds =>
        rw [hr] at h
        have hds : ds = [] := by simpa using h
        refine ⟨rfl, fun x hx => ?_⟩
        exact (describeLevels_ok_nil_iff _ tf.state_vector).mp (by rw [hr, hds]) x
          (by rw [htake]; exact hx)
  · rintro ⟨ha, hall⟩
    have hlev : describeLevels (hierarchyAccs.zip db.levelTables) tf.state_vector =
        Except.ok [] :=
      (describeLevels_ok_nil_iff _ _).mpr
        (fun x hx => hall x (List.mem_of_mem_take hx))
    unfold TaxonomyFilter.describe
    rw [ha, describe_op_and_val_none]
    simp [hlev]

/-- A concrete database with 7 (empty) level tables for witnesses. -/
def c5_db : OtuDB := OtuDB.mk [] [] [] [] [[], [], [], [], [], [], []]

/-- Witness for C5: the all-`None` filter on a concrete database. -/
theorem c5_wit :
    TaxonomyFilter.describe c5_db c9_emptyTaxFilter = Except.ok (Option.none, []) ↔
      (c9_emptyTaxFilter.amplicon_filter = Option.none ∧
        ∀ x ∈ c9_emptyTaxFilter.state_vector, x = Option.none) :=
  c5_thm c5_db c9_emptyTaxFilter (by decide) (by decide)

/-- The initial running query of `TaxonomyOptions._possibilities`:
all OTUs narrowed by the amplicon filter (the `group_by(kingdom_id)` in
the source only affects row grouping, not emptiness). -/
def resolverQ0 (db : OtuDB) (tf : TaxonomyFilter) : List OTURecord :=
  applyOpValFilter (fun o => o.amplicon_id) db.otus tf.amplicon_filter

/-- The hierarchy level accessors zipped against the filter state vector,
as walked by `determine_target`. -/
def resolverPairs (tf : TaxonomyFilter) : List ((OTURecord → Nat) × Option OpVal) :=
  (hierarchyAccs.map (fun p => p.2)).zip tf.state_vector

/-- The `determine_target` walk: at each level, an absent or value-less
selector is the target; otherwise the selector narrows the running query
and the level is the target when no rows remain. -/
def determineTargetAux :
    List ((OTURecord → Nat) × Option OpVal) → List OTURecord → Nat → Option Nat
  | [], _, _ => Option.none
  | (acc, sel) :: rest, q, idx =>
    match sel with
    | Option.none => Option.some idx
    | Option.some ov =>
      match ov.value with
      | Option.none => Option.some idx
      | Option.some _ =>
        if 0 < (applyOpValFilter acc q (Option.some ov)).length then
          determineTargetAux rest (applyOpValFilter acc q (Option.some ov)) (idx + 1)
        else Option.some idx

/-- `determine_target` of `TaxonomyOptions._possibilities`. -/
def determineTarget (db : OtuDB) (tf : TaxonomyFilter) : Option Nat :=
  determineTargetAux (resolverPairs tf) (resolverQ0 db tf) 0

/-- Sequential application of level filters to a running query. -/
def applyPairs (ps : List ((OTURecord → Nat) × Option OpVal)) (q : List OTURecord) :
    List OTURecord :=
  ps.foldl (fun acc p => applyOpValFilter p.1 acc p.2) q

/-- Level `k` of the walked list carries a selector with a value. -/
def pairHasValue (ps : List ((OTURecord → Nat) × Option OpVal)) (k : Nat) : Prop :=
  ∃ p ov v, ps.get? k = Option.some p ∧ p.2 = Option.some ov ∧ ov.value = Option.some v

/-- Level `k` is valid: its selector is present with a value and applying
levels `0..k` to the initial query leaves at least one row. -/
def pairValid (ps : List ((OTURecord → Nat) × Option OpVal)) (q : List OTURecord)
    (k : Nat) : Prop :=
  pairHasValue ps k ∧ applyPairs (ps.take (k + 1)) q ≠ []

theorem applyPairs_cons (a : (OTURecord → Nat) × Option OpVal)
    (l : List ((OTURecord → Nat) × Option OpVal)) (q : List OTURecord) :
    applyPairs (a :: l) q = applyPairs l (applyOpValFilter a.1 q a.2) := rfl

theorem pairValid_cons_succ (a : (OTURecord → Nat) × Option OpVal)
    (rest : List ((OTURecord → Nat) × Option OpVal)) (q : List OTURecord) (k : Nat) :
    pairValid (a :: rest) q (k + 1) ↔ pairValid rest (applyOpValFilter a.1 q a.2) k := by
  unfold pairValid pairHasValue
  rw [List.take_succ_cons, applyPairs_cons]
  simp

theorem determineTargetAux_spec (ps : List ((OTURecord → Nat) × Option OpVal)) :
    ∀ (q : List OTURecord) (idx : Nat),
      (determineTargetAux ps q idx = Option.none ↔ ∀ k, k < ps.length → pairValid ps q k) ∧
      (∀ r, determineTargetAux ps q idx = Option.some r →
        ∃ k, k < ps.length ∧ r = idx + k ∧ ¬pairValid ps q k ∧
          ∀ j, j < k → pairValid ps q j) := by
  induction ps with
  | nil =>
    intro q idx
    constructor
    · constructor
      · intro _ k hk
        exact absurd hk (by simp)
      · intro _
        rfl
    · intro r h
      simp [determineTargetAux] at h
  | cons p rest ih =>
    intro q idx
    obtain ⟨acc, sel⟩ := p
    cases sel with
    | none =>
      have hnv : ¬ pairValid ((acc, Option.none) :: rest) q 0 := by
        rintro ⟨⟨p2, ov, v, hget, hp2, hov⟩, -⟩
        simp at hget
        rw [← hget] at hp2
        simp at hp2
      have hred : determineTargetAux ((acc, Option.none) :: rest) q idx = Option.some idx := rfl
      constructor
      · rw [hred]
        constructor
        · intro h
          exact absurd h (by simp)
        · intro h
          exact absurd (h 0 (by simp)) hnv
      · intro r h
        rw [hred] at h
        have hr : r = idx := (show idx = r by simpa using h).symm
        exact ⟨0, by simp, by rw [hr, Nat.add_zero], hnv,
          fun j hj => absurd hj (Nat.not_lt_zero j)⟩
    | some ov =>
      cases hov : ov.value with
      | none =>
        have hnv : ¬ pairValid ((acc, Option.some ov) :: rest) q 0 := by
          rintro ⟨⟨p2, ov2, v, hget, hp2, hov2⟩, -⟩
          simp at hget
          rw [← hget] at hp2
          simp at hp2
          rw [← hp2] at hov2
          rw [hov] at hov2
          exact absurd hov2 (by simp)
        have hred : determineTargetAux ((acc, Option.some ov) :: rest) q idx =
            Option.some idx := by
          simp [determineTargetAux, hov]
        constructor
        · rw [hred]
          constructor
          · intro h
            exact absurd h (by simp)
          · intro h
            exact absurd (h 0 (by simp)) hnv
        · intro r h
          rw [hred] at h
          have hr : r = idx := (show idx = r by simpa using h).symm
          exact ⟨0, by simp, by rw [hr, Nat.add_zero], hnv,
            fun j hj => absurd hj (Nat.not_lt_zero j)⟩
      | some v0 =>
        have h0has : pairHasValue ((acc, Option.some ov) :: rest) 0 :=
          ⟨(acc, Option.some ov), ov, v0, by simp, rfl, hov⟩
        have htake1 : applyPairs (((acc, Option.some ov) :: rest).take 1) q =
            applyOpValFilter acc q (Option.some ov) := by
          rw [List.take_succ_cons, List.take_zero, applyPairs_cons]
          rfl
        have htrans : ∀ k, pairValid ((acc, Option.some ov) :: rest) q (k + 1) ↔
            pairValid rest (applyOpValFilter acc q (Option.some ov)) k :=
          fun k => pairValid_cons_succ (acc, Option.some ov) rest q k
        by_cases hlen : 0 < (applyOpValFilter acc q (Option.some ov)).length
        · have h0valid : pairValid ((acc, Option.some ov) :: rest) q 0 := by
            refine ⟨h0has, ?_⟩
            rw [htake1]
            intro hnil
            rw [hnil] at hlen
            simp at hlen
          have hred : determineTargetAux ((acc, Option.some ov) :: rest) q idx =
              determineTargetAux rest (applyOpValFilter acc q (Option.some ov)) (idx + 1) := by
            simp [determineTargetAux, hov, hlen]
          obtain ⟨ihnone, ihsome⟩ := ih (applyOpValFilter acc q (Option.some ov)) (idx + 1)
          constructor
          · rw [hred, ihnone]
            constructor
            · intro h k hk
              cases k with
              | zero => exact h0valid
              | succ k2 => exact (htrans k2).mpr (h k2 (by simpa using hk))
            · intro h k hk
              exact (htrans k).mp (h (k + 1) (by simpa using hk))
          · intro r hsome
            rw [hred] at hsome
            obtain ⟨k, hk, hr, hnv, hprev⟩ := ihsome r hsome
            refine ⟨k + 1, by simpa using hk, by omega, ?_, ?_⟩
            · intro hv
              exact hnv ((htrans k).mp hv)
            · intro j hj
              cases j with
              | zero => exact h0valid
              | succ j2 => exact (htrans j2).mpr (hprev j2 (by omega))
        · have hq2nil : applyOpValFilter acc q (Option.some ov) = [] := by
            cases hq : applyOpValFilter acc q (Option.some ov) with
            | nil => rfl
            | cons a t =>
              rw [hq] at hlen
              simp at hlen
          have hnv : ¬ pairValid ((acc, Option.some ov) :: rest) q 0 := by
            rintro ⟨-, hne⟩
            rw [htake1] at hne
            exact hne hq2nil
          have hred : determineTargetAux ((acc, Option.some ov) :: rest) q idx =
              Option.some idx := by
            simp [determineTargetAux, hov, hlen]
          constructor
          · rw [hred]
            constructor
            · intro h
              exact absurd h (by simp)
            · intro h
              exact absurd (h 0 (by simp)) hnv
          · intro r h
            rw [hred] at h
            have hr : r = idx := (show idx = r by simpa using h).symm
            exact ⟨0, by simp, by rw [hr, Nat.add_zero], hnv,
              fun j hj => absurd hj (Nat.not_lt_zero j)⟩

/-- The resolver's result record (`new_options` target and possibilities,
plus the `clear` list); the `{}` outcome is modelled as `Option.none`. -/
structure PossibilitiesResult where
  target : String
  possibilities : List (Nat × String)
  clear : List String
deriving DecidableEq, Repr

/-- `state[:target_idx] + [None] * (len(hierarchy) - target_idx)`. -/
def clearedState (state : List (Option OpVal)) (i : Nat) : List (Option OpVal) :=
  state.take i ++ List.replicate (7 - i) Option.none

instance : DecidableRel (fun (a b : Nat × String) => a.2 ≤ b.2) :=
  fun a b => inferInstanceAs (Decidable (a.2 ≤ b.2))

instance : IsTotal (Nat × String) (fun a b => a.2 ≤ b.2) :=
  ⟨fun a b => le_total a.2 b.2⟩

instance : IsTrans (Nat × String) (fun a b => a.2 ≤ b.2) :=
  ⟨fun _ _ _ h1 h2 => le_trans h1 h2⟩

/-- The general (non-kingdom-special-case) recomputation of the target
level's options: OTUs narrowed by the amplicon filter and the cleared
state (levels before the target only), joined to the target ontology
table, grouped by (id, value) and ordered by value ascending. -/
def generalPossibilities (db : OtuDB) (tf : TaxonomyFilter) (i : Nat) : List (Nat × String) :=
  let table := db.levelTables.getD i []
  let acc := (hierarchyAccs.map (fun p => p.2)).getD i (fun o => o.kingdom_id)
  let q := (hierarchyAccs.zip (clearedState tf.state_vector i)).foldl
    (fun acc2 p => applyOpValFilter (fun o => p.1.2 o) acc2 p.2) (resolverQ0 db tf)
  let pairs := q.flatMap (fun o =>
    (table.filter (fun e => e.1 = acc o)).map (fun e => (acc o, e.2)))
  List.insertionSort (fun a b => a.2 ≤ b.2) pairs.dedup

/-- `TaxonomyOptions._possibilities`: `{}` (here `none`) when the
hierarchy is complete; otherwise the target level name, its possibilities
(the unordered whole kingdom table when the target is the kingdom level
and no amplicon filter is active, else the general recomputation) and the
`clear` list of level names from the target onward. -/
def TaxonomyOptions.possibilities (db : OtuDB) (tf : TaxonomyFilter) :
    Option PossibilitiesResult :=
  match determineTarget db tf with
  | Option.none => Option.none
  | Option.some i =>
    Option.some (PossibilitiesResult.mk (hierarchyNames.getD i "")
      (if tf.amplicon_filter = Option.none ∧ i = 0 then db.levelTables.getD 0 []
       else generalPossibilities db tf i)
      (hierarchyNames.drop i))

/-- Hierarchy level `i` of the filter is valid for the walk: its state
entry carries a selector with a value, and applying the amplicon filter
plus the level filters `0..i` to the OTU table leaves at least one row. -/
def levelValid (db : OtuDB) (tf : TaxonomyFilter) (i : Nat) : Prop :=
  (∃ ov v, tf.state_vector.get? i = Option.some (Option.some ov) ∧
    ov.value = Option.some v) ∧
    applyPairs ((resolverPairs tf).take (i + 1)) (resolverQ0 db tf) ≠ []

theorem get?_zip_eq_some {α β : Type} :
    ∀ (as1 : List α) (bs : List β) (i : Nat) (p : α × β),
      (as1.zip bs).get? i = Option.some p ↔
        (as1.get? i = Option.some p.1 ∧ bs.get? i = Option.some p.2)
  | [], bs, i, p => by simp
  | a :: as2, [], i, p => by simp
  | a :: as2, b :: bs2, 0, p => by
    simp [List.zip_cons_cons, Prod.ext_iff]
  | a :: as2, b :: bs2, i + 1, p => by
    simp only [List.zip_cons_cons, List.get?_cons_succ]
    exact get?_zip_eq_some as2 bs2 i p

theorem levelValid_iff_pairValid (db : OtuDB) (tf : TaxonomyFilter) (i : Nat)
    (_h7 : tf.state_vector.length = 7) (hi : i < 7) :
    levelValid db tf i ↔ pairValid (resolverPairs tf) (resolverQ0 db tf) i := by
  unfold levelValid pairValid pairHasValue resolverPairs
  refine and_congr ?_ Iff.rfl
  have hlm : (hierarchyAccs.map (fun p => p.2)).length = 7 := by
    rw [List.length_map]
    rfl
  have hi2 : i < (hierarchyAccs.map (fun p => p.2)).length := by rw [hlm]; exact hi
  constructor
  · rintro ⟨ov, v, hst, hov⟩
    refine ⟨((hierarchyAccs.map (fun p => p.2)).get ⟨i, hi2⟩, Option.some ov), ov, v, ?_, rfl, hov⟩
    exact (get?_zip_eq_some _ _ i _).mpr ⟨List.get?_eq_get hi2, hst⟩
  · rintro ⟨p, ov, v, hz, hp2, hov⟩
    refine ⟨ov, v, ?_, hov⟩
    have := ((get?_zip_eq_some _ _ i p).mp hz).2
    rw [← hp2]
    exact this

/-- Claim C2: the resolver walks the 7 levels in order; the result is
`{}` iff every level is valid; otherwise the target is the first level
whose selector is absent/value-less or whose application leaves zero
rows, `clear` is exactly the level names from the target onward (never a
level before it), and `target` is the target level's name. -/
theorem c2_thm (db : OtuDB) (tf : TaxonomyFilter) (h7 : tf.state_vector.length = 7) :
    (TaxonomyOptions.possibilities db tf = Option.none ↔
      ∀ i, i < 7 → levelValid db tf i) ∧
    (∀ r, TaxonomyOptions.possibilities db tf = Option.some r →
      ∃ i, i < 7 ∧ ¬levelValid db tf i ∧ (∀ j, j < i → levelValid db tf j) ∧
        r.clear = hierarchyNames.drop i ∧ r.target = hierarchyNames.getD i "" ∧
        ∀ j, j < 7 → (hierarchyNames.getD j "" ∈ r.clear ↔ i ≤ j)) := by
  have hplen : (resolverPairs tf).length = 7 := by
    unfold resolverPairs
    rw [List.length_zip, List.length_map, h7]
    rfl
  obtain ⟨hnone, hsome⟩ := determineTargetAux_spec (resolverPairs tf) (resolverQ0 db tf) 0
  constructor
  · unfold TaxonomyOptions.possibilities determineTarget
    cases hd : determineTargetAux (resolverPairs tf) (resolverQ0 db tf) 0 with
    | none =>
      simp only []
      constructor
      · intro _ i hi
        exact (levelValid_iff_pairValid db tf i h7 hi).mpr
          ((hnone.mp hd) i (by rw [hplen]; exact hi))
      · intro _
        trivial
    | some i =>
      simp only []
      constructor
      · intro h
        exact absurd h (by simp)
      · intro h
        exfalso
        obtain ⟨k, hk, hrk, hnv, -⟩ := hsome i hd
        rw [hplen] at hk
        exact hnv ((levelValid_iff_pairValid db tf k h7 hk).mp
          (h k hk))
  · intro r hr
    unfold TaxonomyOptions.possibilities determineTarget at hr
    cases hd : determineTargetAux (resolverPairs tf) (resolverQ0 db tf) 0 with
    | none =>
      rw [hd] at hr
      exact absurd hr (by simp)
    | some i =>
      rw [hd] at hr
      obtain ⟨k, hk, hrk, hnv, hprev⟩ := hsome i hd
      rw [hplen] at hk
      have hik : i = k := by omega
      subst hik
      have hrr : r = PossibilitiesResult.mk (hierarchyNames.getD i "")
          (if tf.amplicon_filter = Option.none ∧ i = 0 then db.levelTables.getD 0 []
           else generalPossibilities db tf i)
          (hierarchyNames.drop i) := (Option.some.inj hr).symm
      refine ⟨i, hk, ?_, ?_, ?_, ?_, ?_⟩
      · intro hv
        exact hnv ((levelValid_iff_pairValid db tf i h7 hk).mp hv)
      · intro j hj
        exact (levelValid_iff_pairValid db tf j h7 (by omega)).mpr (hprev j hj)
      · rw [hrr]
      · rw [hrr]
      · intro j hj
        rw [hrr]
        simp only []
        interval_cases i <;> interval_cases j <;> decide

/-- Witness for C2: the all-`None` filter over a concrete database (the
kingdom level is the target). -/
theorem c2_wit :
    (TaxonomyOptions.possibilities c5_db c9_emptyTaxFilter = Option.none ↔
      ∀ i, i < 7 → levelValid c5_db c9_emptyTaxFilter i) ∧
    (∀ r, TaxonomyOptions.possibilities c5_db c9_emptyTaxFilter = Option.some r →
      ∃ i, i < 7 ∧ ¬levelValid c5_db c9_emptyTaxFilter i ∧
        (∀ j, j < i → levelValid c5_db c9_emptyTaxFilter j) ∧
        r.clear = hierarchyNames.drop i ∧ r.target = hierarchyNames.getD i "" ∧
        ∀ j, j < 7 → (hierarchyNames.getD j "" ∈ r.clear ↔ i ≤ j)) :=
  c2_thm c5_db c9_emptyTaxFilter (by decide)

theorem generalPossibilities_sorted (db : OtuDB) (tf : TaxonomyFilter) (i : Nat) :
    List.Pairwise (fun (a b : Nat × String) => a.2 ≤ b.2) (generalPossibilities db tf i) := by
  unfold generalPossibilities
  exact List.sorted_insertionSort _ _

/-- Amended claim C4: when the resolver has a target, the possibilities
list is sorted by display value ascending in the general branch; in the
special case (kingdom target with no amplicon filter) the possibilities
are the raw kingdom category table in table order, which is not sorted in
general. -/
theorem c4_thm (db : OtuDB) (tf : TaxonomyFilter) (r : PossibilitiesResult)
    (hr : TaxonomyOptions.possibilities db tf = Option.some r) :
    (¬(tf.amplicon_filter = Option.none ∧ determineTarget db tf = Option.some 0) →
      List.Pairwise (fun a b => a.2 ≤ b.2) r.possibilities) ∧
    ((tf.amplicon_filter = Option.none ∧ determineTarget db tf = Option.some 0) →
      r.possibilities = db.levelTables.getD 0 []) := by
  unfold TaxonomyOptions.possibilities at hr
  cases hd : determineTarget db tf with
  | none =>
    rw [hd] at hr
    exact absurd hr (by simp)
  | some i =>
    rw [hd] at hr
    have hrr : r = PossibilitiesResult.mk (hierarchyNames.getD i "")
        (if tf.amplicon_filter = Option.none ∧ i = 0 then db.levelTables.getD 0 []
         else generalPossibilities db tf i)
        (hierarchyNames.drop i) := (Option.some.inj hr).symm
    constructor
    · intro hns
      have hcond : ¬(tf.amplicon_filter = Option.none ∧ i = 0) := by
        rintro ⟨h1, h2⟩
        exact hns ⟨h1, by rw [h2]⟩
      rw [hrr]
      simp only [if_neg hcond]
      exact generalPossibilities_sorted db tf i
    · rintro ⟨h1, h2⟩
      have hi0 : i = 0 := by simpa using h2
      rw [hrr]
      simp only [if_pos (And.intro h1 hi0)]

/-- A concrete database whose kingdom category table is stored in
non-alphabetical order. -/
def c4_db : OtuDB := OtuDB.mk [] [] [] [] [[(1, "b"), (2, "a")]]

/-- Counterexample to claim C4 as stated: with no amplicon filter and the
kingdom level as target, the resolver returns the kingdom table verbatim
(`[(1, "b"), (2, "a")]`), which is not sorted by display value. -/
theorem c4_cex :
    TaxonomyOptions.possibilities c4_db c9_emptyTaxFilter =
      Option.some (PossibilitiesResult.mk "kingdom" [(1, "b"), (2, "a")] hierarchyNames) ∧
    ¬ List.Pairwise (fun (a b : Nat × String) => a.2 ≤ b.2) [(1, "b"), (2, "a")] := by
  constructor
  · decide
  · simp [List.pairwise_cons, String.le_iff_toList_le]
    decide

/-- A filter with an amplicon selector, forcing the general branch. -/
def c4w_tf : TaxonomyFilter :=
  TaxonomyFilter.mk (Option.some (OpVal.mk TaxOp.isEq (Option.some 5)))
    [Option.none, Option.none, Option.none, Option.none, Option.none, Option.none, Option.none]

/-- Witness for C4 on a concrete general-branch resolution. -/
theorem c4_wit :
    (¬(c4w_tf.amplicon_filter = Option.none ∧ determineTarget c4_db c4w_tf = Option.some 0) →
      List.Pairwise (fun a b => a.2 ≤ b.2)
        (PossibilitiesResult.mk "kingdom" [] hierarchyNames).possibilities) ∧
    ((c4w_tf.amplicon_filter = Option.none ∧ determineTarget c4_db c4w_tf = Option.some 0) →
      (PossibilitiesResult.mk "kingdom" [] hierarchyNames).possibilities =
        c4_db.levelTables.getD 0 []) :=
  c4_thm c4_db c4w_tf (PossibilitiesResult.mk "kingdom" [] hierarchyNames) (by decide)

/-- The per-row predicate of `apply_op_and_val_filter`. -/
def opValKeeps (x : Nat) (ov : Option OpVal) : Bool :=
  match ov with
  | Option.none => true
  | Option.some v =>
    match v.value with
    | Option.none => true
    | Option.some w =>
      match v.operator with
      | TaxOp.isNot => decide (x ≠ w)
      | TaxOp.isEq => decide (x = w)

theorem applyOpValFilter_eq_filter {α : Type} (attr : α → Nat) (q : List α)
    (ov : Option OpVal) :
    applyOpValFilter attr q ov = q.filter (fun r => opValKeeps (attr r) ov) := by
  cases ov with
  | none => simp [applyOpValFilter, opValKeeps]
  | some v =>
    obtain ⟨op, val⟩ := v
    cases val with
    | none => simp [applyOpValFilter, opValKeeps]
    | some w => cases op <;> rfl

/-- The per-OTU predicate of `TaxonomyFilter.apply`. -/
def taxKeeps (tf : TaxonomyFilter) (o : OTURecord) : Bool :=
  opValKeeps o.amplicon_id tf.amplicon_filter &&
    (hierarchyAccs.zip tf.state_vector).all (fun p => opValKeeps (p.1.2 o) p.2)

theorem foldl_opval_filter {α : Type} (otuOf : α → OTURecord)
    (l : List ((String × (OTURecord → Nat)) × Option OpVal)) :
    ∀ q : List α,
      l.foldl (fun acc p => applyOpValFilter (fun r => p.1.2 (otuOf r)) acc p.2) q =
        q.filter (fun r => l.all (fun p => opValKeeps (p.1.2 (otuOf r)) p.2)) := by
  induction l with
  | nil =>
    intro q
    simp
  | cons p rest ih =>
    intro q
    rw [List.foldl_cons, applyOpValFilter_eq_filter, ih, List.filter_filter]
    apply List.filter_congr
    intro a _
    simp [Bool.and_comm]

theorem applyQ_eq_filter {α : Type} (tf : TaxonomyFilter) (otuOf : α → OTURecord)
    (q : List α) :
    tf.applyQ otuOf q = q.filter (fun r => taxKeeps tf (otuOf r)) := by
  unfold TaxonomyFilter.applyQ
  rw [applyOpValFilter_eq_filter, foldl_opval_filter, List.filter_filter]
  apply List.filter_congr
  intro a _
  simp [taxKeeps, Bool.and_comm]

/-- A Python dict with integer keys, preserving insertion order:
assignment overwrites in place or appends. -/
def dictInsert (m : List (Nat × Nat)) (k v : Nat) : List (Nat × Nat) :=
  if m.any (fun e => e.1 == k) then m.map (fun e => if e.1 == k then (k, v) else e)
  else m ++ [(k, v)]

/-- Dict lookup (`d[k]`, `None`-free form of a `KeyError`). -/
def dictLookup (m : List (Nat × Nat)) (k : Nat) : Option Nat :=
  (m.find? (fun e => e.1 == k)).map (fun e => e.2)

/-- A minimal model of the JSON string escaping used by `json.dumps`. -/
def escChar (c : Char) : String :=
  if c = '"' then "\\\"" else if c = '\\' then "\\\\" else String.singleton c

/-- `json.dumps` of a string. -/
def jsonQuote (s : String) : String :=
  "\"" ++ String.join (s.toList.map escChar) ++ "\""

def pad2 (n : Nat) : String := if n < 10 then "0" ++ toString n else toString n

def pad4 (n : Nat) : String :=
  if n < 10 then "000" ++ toString n
  else if n < 100 then "00" ++ toString n
  else if n < 1000 then "0" ++ toString n
  else toString n

/-- Python `str()` of a date (ISO `yyyy-mm-dd`). -/
def pyDateIso (y m d : Nat) : String := pad4 y ++ "-" ++ pad2 m ++ "-" ++ pad2 d

/-- `json.dumps` of a value as used by `k_v` (dates have already been
converted with `str()`; floats are rendered by the external `fshow`). -/
def jsonDumps (fshow : Rat → String) : PyVal → String
  | PyVal.pyNone => "null"
  | PyVal.pyInt n => toString n
  | PyVal.pyFloat q => fshow q
  | PyVal.pyStr s => jsonQuote s
  | PyVal.pyDate y m d => jsonQuote (pyDateIso y m d)
  | PyVal.pyList l =>
    "[" ++ String.intercalate ", " (l.attach.map (fun x => jsonDumps fshow x.1)) ++ "]"
decreasing_by
  simp_wf
  have := List.sizeOf_lt_of_mem x.2
  omega

/-- `k_v` from `biom.py`: `json.dumps(k) + ':' + json.dumps(v)` with a
date value first converted via `str()`. -/
def k_v (fshow : Rat → String) (k : String) (v : PyVal) : String :=
  jsonQuote k ++ ":" ++ jsonDumps fshow v

/-- `taxonomy_fields` of `otu_rows` (`class` is fetched through the
`klass` attribute rename, hidden inside the external `gv`). -/
def taxonomyFields : List String :=
  ["kingdom", "phylum", "class", "order", "family", "genus", "species"]

/-- One emitted row of the `rows` array:
`'{"id": "%s","metadata": {%s,%s}}'`.  `gv o attr` is the external
`val_or_empty(getattr(otu, attr))` resolution of an ontology value. -/
def otuRowStr (gv : OTURecord → String → String) (fshow : Rat → String)
    (o : OTURecord) : String :=
  "\x7b\"id\": \"" ++ o.code ++ "\",\"metadata\": \x7b" ++
    k_v fshow "amplicon" (PyVal.pyStr (gv o "amplicon")) ++ "," ++
    k_v fshow "taxonomy" (PyVal.pyList (taxonomyFields.map (fun f => PyVal.pyStr (gv o f)))) ++
    "\x7d\x7d"

/-- `otu_rows`: emits one metadata row per matching OTU and fills
`otu_to_row` with first-encounter indices. -/
def otuRows (gv : OTURecord → String → String) (fshow : Rat → String)
    (otus : List OTURecord) : List String × List (Nat × Nat) :=
  (otus.map (otuRowStr gv fshow),
   otus.enum.foldl (fun m p => dictInsert m p.2.id p.1) [])

/-- `empty_to_none` from `sample_columns`. -/
def emptyToNone (v : PyVal) : PyVal :=
  match v with
  | PyVal.pyStr s => if s = "" then PyVal.pyNone else v
  | _ => v

/-- `get_context_value(sample, field)`. -/
def getContextValue (s : SampleRecord) (field : String) : PyVal :=
  emptyToNone (sampleAttr s field)

instance : DecidableRel (fun (a b : String) => a ≤ b) :=
  fun a b => inferInstanceAs (Decidable (a ≤ b))

instance : IsTotal String (fun a b => a ≤ b) := ⟨fun a b => le_total a b⟩

instance : IsTrans String (fun a b => a ≤ b) := ⟨fun _ _ _ h1 h2 => le_trans h1 h2⟩

/-- The first pass of `sample_columns`: the contextual fields for which
at least one matching sample has a non-empty value, sorted
alphabetically. -/
def exportFields (allFields : List String) (samples : List SampleRecord) : List String :=
  List.insertionSort (fun a b => a ≤ b)
    ((allFields.filter
      (fun f => samples.any (fun s => !(getContextValue s f).isNoneV))).dedup)

/-- One emitted entry of the `columns` array:
`'{"id": "102.100.100/%s","metadata": {%s}}'`. -/
def sampleRowStr (fshow : Rat → String) (fields : List String) (s : SampleRecord) : String :=
  "\x7b\"id\": \"102.100.100/" ++ toString s.id ++ "\",\"metadata\": \x7b" ++
    String.intercalate "," (fields.map (fun f => k_v fshow f (getContextValue s f))) ++
    "\x7d\x7d"

/-- The second pass of `sample_columns`: enumerate the samples whose id
is not yet in `sample_to_column`, assign them consecutive column indices
and emit their metadata. -/
def sampleColumnsAux (fshow : Rat → String) (fields : List String) :
    List SampleRecord → List (Nat × Nat) → Nat → List String × List (Nat × Nat)
  | [], m, _ => ([], m)
  | s :: rest, m, idx =>
    if m.any (fun e => e.1 == s.id) then sampleColumnsAux fshow fields rest m idx
    else
      let r := sampleColumnsAux fshow fields rest (dictInsert m s.id idx) (idx + 1)
      (sampleRowStr fshow fields s :: r.1, r.2)

/-- `sample_columns` from `biom.py`: full first pass over matching
samples for the field set, then the emission pass.  `schemaCols` is the
external `SampleContext.__table__.columns` name list. -/
def sample_columns (fshow : Rat → String) (schemaCols : List String) (db : OtuDB)
    (tf : TaxonomyFilter) (cf : ContextualFilter) : List String × List (Nat × Nat) :=
  let allFields := schemaCols.filter (fun f => f ≠ "id")
  let fields := exportFields allFields (matching_samples db tf cf)
  sampleColumnsAux fshow fields (matching_samples db tf cf) [] 0

/-- `abundance_tbl`: one `[row, col, count]` triple per raw abundance
fact, translated through the two index dicts (a `none` component models a
`KeyError`). -/
def abundance_tbl (facts : List (OTURecord × SampleOTURecord × SampleRecord))
    (otu_to_row sample_to_column : List (Nat × Nat)) :
    List (Option Nat × Option Nat × Nat) :=
  facts.map (fun t => (dictLookup otu_to_row t.2.1.otu_id,
    dictLookup sample_to_column t.2.1.sample_id, t.2.1.count))

/-- The semantic content of the JSON document emitted by
`generate_biom_file`, in emitted order: `rows`, `columns`, then `shape`
(evaluated after both index dicts are complete) and `data`. -/
structure BiomExport where
  rows : List String
  columns : List String
  shape : Nat × Nat
  data : List (Option Nat × Option Nat × Nat)
deriving Repr

/-- `generate_biom_file` from `biom.py` (consumed in emitted order). -/
def generate_biom_file (gv : OTURecord → String → String) (fshow : Rat → String)
    (schemaCols : List String) (db : OtuDB) (tf : TaxonomyFilter) (cf : ContextualFilter) :
    BiomExport :=
  let or2 := otuRows gv fshow (matching_otus db tf cf Option.none)
  let sc := sample_columns fshow schemaCols db tf cf
  BiomExport.mk or2.1 sc.1 (or2.2.length, sc.2.length)
    (abundance_tbl (matching_sample_otus db tf cf) or2.2 sc.2)

theorem dictInsert_fresh (m : List (Nat × Nat)) (k v : Nat)
    (h : m.any (fun e => e.1 == k) = false) :
    dictInsert m k v = m ++ [(k, v)] := by
  simp [dictInsert, h]

theorem enumFrom_fold_dictInsert (otus : List OTURecord) :
    ∀ (k : Nat) (m : List (Nat × Nat)),
      (otus.map (fun o => o.id)).Nodup →
      (∀ o ∈ otus, m.any (fun e => e.1 == o.id) = false) →
      (otus.enumFrom k).foldl (fun m2 p => dictInsert m2 p.2.id p.1) m =
        m ++ (otus.enumFrom k).map (fun p => (p.2.id, p.1)) := by
  induction otus with
  | nil =>
    intro k m _ _
    simp
  | cons o rest ih =>
    intro k m hnd hfresh
    have hstep : (rest.enumFrom (k + 1)).foldl (fun m2 p => dictInsert m2 p.2.id p.1)
        (m ++ [(o.id, k)]) =
        (m ++ [(o.id, k)]) ++ (rest.enumFrom (k + 1)).map (fun p => (p.2.id, p.1)) := by
      apply ih (k + 1) (m ++ [(o.id, k)])
      · exact (by simpa using hnd : (o.id :: rest.map (fun o => o.id)).Nodup).of_cons
      · intro o2 ho2
        rw [List.any_append]
        have h1 : m.any (fun e => e.1 == o2.id) = false :=
          hfresh o2 (List.mem_cons_of_mem o ho2)
        have h2 : o2.id ≠ o.id := by
          intro hc
          have hniq : o.id ∉ rest.map (fun o => o.id) :=
            (List.nodup_cons.mp (by simpa using hnd)).1
          exact hniq (by rw [← hc]; exact List.mem_map_of_mem _ ho2)
        rw [h1]
        simp [h2.symm]
    calc ((o :: rest).enumFrom k).foldl (fun m2 p => dictInsert m2 p.2.id p.1) m
        = (rest.enumFrom (k + 1)).foldl (fun m2 p => dictInsert m2 p.2.id p.1)
            (dictInsert m o.id k) := by rw [List.enumFrom_cons, List.foldl_cons]
      _ = (rest.enumFrom (k + 1)).foldl (fun m2 p => dictInsert m2 p.2.id p.1)
            (m ++ [(o.id, k)]) := by
            rw [dictInsert_fresh m o.id k (hfresh o (List.mem_cons_self o rest))]
      _ = (m ++ [(o.id, k)]) ++ (rest.enumFrom (k + 1)).map (fun p => (p.2.id, p.1)) := hstep
      _ = m ++ ((o :: rest).enumFrom k).map (fun p => (p.2.id, p.1)) := by
            rw [List.enumFrom_cons, List.map_cons, List.append_assoc]
            rfl

theorem otuToRow_eq (otus : List OTURecord)
    (hnd : (otus.map (fun o => o.id)).Nodup) :
    otus.enum.foldl (fun m p => dictInsert m p.2.id p.1) [] =
      otus.enum.map (fun p => (p.2.id, p.1)) := by
  have := enumFrom_fold_dictInsert otus 0 [] hnd (fun o _ => rfl)
  simpa [List.enum] using this

theorem lookup_enumFrom_map (otus : List OTURecord) :
    ∀ (k0 : Nat) (o : OTURecord), o ∈ otus →
      ∃ i, dictLookup ((otus.enumFrom k0).map (fun p => (p.2.id, p.1))) o.id =
        Option.some i ∧ i < k0 + otus.length := by
  induction otus with
  | nil =>
    intro k0 o ho
    exact absurd ho (by simp)
  | cons o2 rest ih =>
    intro k0 o ho
    rw [List.enumFrom_cons, List.map_cons]
    by_cases he : (o2.id == o.id) = true
    · refine ⟨k0, ?_, by rw [List.length_cons]; omega⟩
      unfold dictLookup
      rw [List.find?_cons_of_pos]
      · rfl
      · simpa using he
    · have ho2 : o ∈ rest := by
        rcases List.mem_cons.mp ho with h | h
        · exfalso
          rw [h] at he
          simp at he
        · exact h
      obtain ⟨i, hl, hb⟩ := ih (k0 + 1) o ho2
      refine ⟨i, ?_, by rw [List.length_cons]; omega⟩
      unfold dictLookup at hl ⊢
      rw [List.find?_cons_of_neg]
      · exact hl
      · simpa using he

theorem otuToRow_length (otus : List OTURecord)
    (hnd : (otus.map (fun o => o.id)).Nodup) :
    (otus.enum.foldl (fun m p => dictInsert m p.2.id p.1) []).length = otus.length := by
  rw [otuToRow_eq otus hnd]
  simp

theorem dictLookup_otuToRow (otus : List OTURecord)
    (hnd : (otus.map (fun o => o.id)).Nodup) (o : OTURecord) (ho : o ∈ otus) :
    ∃ i, dictLookup (otus.enum.foldl (fun m p => dictInsert m p.2.id p.1) []) o.id =
      Option.some i ∧ i < otus.length := by
  rw [otuToRow_eq otus hnd]
  have := lookup_enumFrom_map otus 0 o ho
  simpa [List.enum] using this

theorem dictLookup_lt (m2 : List (Nat × Nat)) (k : Nat)
    (hmem : ∃ e ∈ m2, e.1 = k) (hval : ∀ e ∈ m2, e.2 < m2.length) :
    ∃ c, dictLookup m2 k = Option.some c ∧ c < m2.length := by
  cases hf : m2.find? (fun e => e.1 == k) with
  | none =>
    exfalso
    obtain ⟨e, he, hk⟩ := hmem
    have := List.find?_eq_none.mp hf e he
    simp [hk] at this
  | some e =>
    exact ⟨e.2, by simp [dictLookup, hf], hval e (List.mem_of_find?_eq_some hf)⟩

theorem sampleColumnsAux_spec (fshow : Rat → String) (fields : List String) :
    ∀ (samples : List SampleRecord) (m : List (Nat × Nat)) (idx : Nat),
      (∀ e ∈ m, e.2 < idx) → m.length = idx →
      ((sampleColumnsAux fshow fields samples m idx).2.length =
          m.length + (sampleColumnsAux fshow fields samples m idx).1.length) ∧
        (∀ e ∈ m, e ∈ (sampleColumnsAux fshow fields samples m idx).2) ∧
        (∀ e ∈ (sampleColumnsAux fshow fields samples m idx).2,
          e.2 < (sampleColumnsAux fshow fields samples m idx).2.length) ∧
        (∀ s ∈ samples,
          ∃ e ∈ (sampleColumnsAux fshow fields samples m idx).2, e.1 = s.id) ∧
        ((m.map (fun e => e.1)).Nodup →
          ((sampleColumnsAux fshow fields samples m idx).2.map (fun e => e.1)).Nodup ∧
            ((sampleColumnsAux fshow fields samples m idx).2.map (fun e => e.1)).toFinset =
              (m.map (fun e => e.1)).toFinset ∪
                (samples.map (fun s => s.id)).toFinset) := by
  intro samples
  induction samples with
  | nil =>
    intro m idx hval hlen
    refine ⟨by simp [sampleColumnsAux], fun e he => he, ?_, by simp, ?_⟩
    · intro e he
      have h1 : (sampleColumnsAux fshow fields [] m idx) = ([], m) := rfl
      rw [h1] at he ⊢
      show e.2 < m.length
      have := hval e he
      omega
    · intro hnd
      have h1 : (sampleColumnsAux fshow fields [] m idx) = ([], m) := rfl
      rw [h1]
      exact ⟨hnd, by simp⟩
  | cons s rest ih =>
    intro m idx hval hlen
    by_cases hmem : m.any (fun e => e.1 == s.id) = true
    · have hred : sampleColumnsAux fshow fields (s :: rest) m idx =
          sampleColumnsAux fshow fields rest m idx := by
        simp [sampleColumnsAux, hmem]
      obtain ⟨ih1, ih2, ih3, ih4, ih5⟩ := ih m idx hval hlen
      rw [hred]
      obtain ⟨e0, he0, he0k⟩ := List.any_eq_true.mp hmem
      have he0id : e0.1 = s.id := by simpa using he0k
      refine ⟨ih1, ih2, ih3, ?_, ?_⟩
      · intro s2 hs2
        rcases List.mem_cons.mp hs2 with h | h
        · subst h
          exact ⟨e0, ih2 e0 he0, he0id⟩
        · exact ih4 s2 h
      · intro hnd
        obtain ⟨hnd2, hset⟩ := ih5 hnd
        refine ⟨hnd2, ?_⟩
        rw [hset]
        have hsidL : s.id ∈ m.map (fun e => e.1) :=
          he0id ▸ List.mem_map_of_mem (fun e => e.1) he0
        ext x
        simp only [List.map_cons, List.toFinset_cons, Finset.mem_union,
          Finset.mem_insert, List.mem_toFinset]
        constructor
        · rintro (h | h)
          · exact Or.inl h
          · exact Or.inr (Or.inr h)
        · rintro (h | h | h)
          · exact Or.inl h
          · exact Or.inl (by rw [h]; exact hsidL)
          · exact Or.inr h
    · have hfresh : m.any (fun e => e.1 == s.id) = false :=
        Bool.eq_false_iff.mpr hmem
      have hm2 : dictInsert m s.id idx = m ++ [(s.id, idx)] :=
        dictInsert_fresh m s.id idx hfresh
      have hred : sampleColumnsAux fshow fields (s :: rest) m idx =
          (sampleRowStr fshow fields s ::
            (sampleColumnsAux fshow fields rest (m ++ [(s.id, idx)]) (idx + 1)).1,
           (sampleColumnsAux fshow fields rest (m ++ [(s.id, idx)]) (idx + 1)).2) := by
        rw [show sampleColumnsAux fshow fields (s :: rest) m idx =
          (if m.any (fun e => e.1 == s.id) then sampleColumnsAux fshow fields rest m idx
           else (sampleRowStr fshow fields s ::
              (sampleColumnsAux fshow fields rest (dictInsert m s.id idx) (idx + 1)).1,
            (sampleColumnsAux fshow fields rest (dictInsert m s.id idx) (idx + 1)).2))
          from rfl]
        rw [hfresh, hm2]
        simp
      have hval2 : ∀ e ∈ m ++ [(s.id, idx)], e.2 < idx + 1 := by
        intro e he
        rcases List.mem_append.mp he with h | h
        · exact Nat.lt_succ_of_lt (hval e h)
        · have : e = (s.id, idx) := by simpa using h
          rw [this]
          exact Nat.lt_succ_self idx
      have hlen2 : (m ++ [(s.id, idx)]).length = idx + 1 := by
        simp [hlen]
      obtain ⟨ih1, ih2, ih3, ih4, ih5⟩ :=
        ih (m ++ [(s.id, idx)]) (idx + 1) hval2 hlen2
      rw [hred]
      have hnotin : s.id ∉ m.map (fun e => e.1) := by
        intro hc
        rw [List.mem_map] at hc
        obtain ⟨e, he, hek⟩ := hc
        have := List.any_eq_false.mp hfresh e he
        simp [hek] at this
      refine ⟨?_, ?_, ?_, ?_, ?_⟩
      · rw [ih1]
        simp only [List.length_append, List.length_cons, List.length_nil]
        omega
      · intro e he
        exact ih2 e (List.mem_append_left _ he)
      · exact ih3
      · intro s2 hs2
        rcases List.mem_cons.mp hs2 with h | h
        · subst h
          exact ⟨(s2.id, idx), ih2 _ (List.mem_append_right _ (by simp)), rfl⟩
        · exact ih4 s2 h
      · intro hnd
        have hkeys2 : ((m ++ [(s.id, idx)]).map (fun e => e.1)) =
            m.map (fun e => e.1) ++ [s.id] := by
          simp
        have hnd2 : ((m ++ [(s.id, idx)]).map (fun e => e.1)).Nodup := by
          rw [hkeys2]
          refine List.Nodup.append hnd (by simp) ?_
          intro a ha hb
          have : a = s.id := by simpa using hb
          rw [this] at ha
          exact hnotin ha
        obtain ⟨hnd3, hset⟩ := ih5 hnd2
        refine ⟨hnd3, ?_⟩
        rw [hset, hkeys2]
        ext x
        simp only [List.toFinset_append, List.map_cons, List.toFinset_cons,
          Finset.mem_union, Finset.mem_insert, List.mem_toFinset]
        constructor
        · rintro ((h | h) | h)
          · exact Or.inl h
          · exact Or.inr (Or.inl (by simpa using h))
          · exact Or.inr (Or.inr h)
        · rintro (h | h | h)
          · exact Or.inl (Or.inl h)
          · exact Or.inl (Or.inr (by simpa using h))
          · exact Or.inr h


theorem matching_sample_otus_subset (db : OtuDB) (tf : TaxonomyFilter)
    (cf : ContextualFilter) :
    ∀ t ∈ matching_sample_otus db tf cf,
      t.1 ∈ db.otus ∧ t.2.1 ∈ db.sampleOTUs ∧ t.2.2 ∈ db.samples ∧
        t.1.id = t.2.1.otu_id ∧ t.2.2.id = t.2.1.sample_id ∧
        taxKeeps tf t.1 = true ∧ ctxKeeps cf t.2.2 = true := by
  intro t ht
  unfold matching_sample_otus ContextualFilter.applyQ at ht
  rw [applyQ_eq_filter] at ht
  rw [List.mem_filter] at ht
  obtain ⟨ht, hctx⟩ := ht
  rw [List.mem_filter] at ht
  obtain ⟨ht, htax⟩ := ht
  rw [List.mem_filter] at ht
  obtain ⟨ht, hj2⟩ := ht
  rw [List.mem_filter] at ht
  obtain ⟨ht, hj1⟩ := ht
  simp only [List.mem_flatMap, List.mem_map] at ht
  obtain ⟨o, ho, f, hf, s, hs, heq⟩ := ht
  subst heq
  exact ⟨ho, hf, hs, by simpa using hj1, by simpa using hj2, htax, hctx⟩

theorem mem_contextual_subquery (db : OtuDB) (cf : ContextualFilter) (ids : List Nat)
    (hsub : buildContextualSubquery db cf = Option.some ids)
    (f : SampleOTURecord) (s : SampleRecord) (hf : f ∈ db.sampleOTUs)
    (hs : s ∈ db.samples) (hsid : s.id = f.sample_id) (hctx : ctxKeeps cf s = true) :
    f.otu_id ∈ ids := by
  unfold buildContextualSubquery at hsub
  by_cases he : cf.is_empty = true
  · rw [if_pos he] at hsub
    exact absurd hsub (by simp)
  · rw [if_neg he] at hsub
    have hids := Option.some.inj hsub
    rw [← hids]
    rw [List.mem_dedup, List.mem_map]
    refine ⟨(f, s), ?_, rfl⟩
    unfold ContextualFilter.applyQ
    rw [List.mem_filter]
    refine ⟨?_, hctx⟩
    rw [List.mem_filter]
    constructor
    · simp only [List.mem_flatMap, List.mem_map]
      exact ⟨f, hf, s, hs, rfl⟩
    · simpa using hsid

theorem mem_taxonomy_subquery (db : OtuDB) (tf : TaxonomyFilter) (ids : List Nat)
    (hsub : buildTaxonomySubquery db tf = Option.some ids)
    (f : SampleOTURecord) (o : OTURecord) (hf : f ∈ db.sampleOTUs)
    (ho : o ∈ db.otus) (hoid : o.id = f.otu_id) (htax : taxKeeps tf o = true) :
    f.sample_id ∈ ids := by
  unfold buildTaxonomySubquery at hsub
  by_cases he : tf.is_empty = true
  · rw [if_pos he] at hsub
    exact absurd hsub (by simp)
  · rw [if_neg he] at hsub
    have hids := Option.some.inj hsub
    rw [← hids]
    rw [List.mem_dedup, List.mem_map]
    refine ⟨(f, o), ?_, rfl⟩
    rw [applyQ_eq_filter]
    rw [List.mem_filter]
    refine ⟨?_, htax⟩
    rw [List.mem_filter]
    constructor
    · simp only [List.mem_flatMap, List.mem_map]
      exact ⟨f, hf, o, ho, rfl⟩
    · simpa using hoid

theorem mem_matching_otus_intro (db : OtuDB) (tf : TaxonomyFilter) (cf : ContextualFilter)
    (o : OTURecord) (f : SampleOTURecord) (s : SampleRecord)
    (ho : o ∈ db.otus) (hf : f ∈ db.sampleOTUs) (hs : s ∈ db.samples)
    (hid : o.id = f.otu_id) (hsid : s.id = f.sample_id)
    (htax : taxKeeps tf o = true) (hctx : ctxKeeps cf s = true) :
    o ∈ matching_otus db tf cf Option.none := by
  have hdef : matching_otus db tf cf Option.none =
      List.insertionSort (fun a b => a.id ≤ b.id)
        (tf.applyQ (fun o => o)
          (match buildContextualSubquery db cf with
           | Option.none => db.otus
           | Option.some ids => db.otus.filter (fun o => ids.contains o.id))) := rfl
  rw [hdef, (List.perm_insertionSort _ _).mem_iff]
  rw [applyQ_eq_filter, List.mem_filter]
  refine ⟨?_, htax⟩
  cases hsub : buildContextualSubquery db cf with
  | none =>
    simp only [hsub]
    exact ho
  | some ids =>
    simp only [hsub]
    rw [List.mem_filter]
    refine ⟨ho, ?_⟩
    have hmemids : o.id ∈ ids := by
      rw [hid]
      exact mem_contextual_subquery db cf ids hsub f s hf hs hsid hctx
    exact List.elem_eq_true_of_mem hmemids

theorem mem_matching_samples_intro (db : OtuDB) (tf : TaxonomyFilter)
    (cf : ContextualFilter) (o : OTURecord) (f : SampleOTURecord) (s : SampleRecord)
    (ho : o ∈ db.otus) (hf : f ∈ db.sampleOTUs) (hs : s ∈ db.samples)
    (hid : o.id = f.otu_id) (hsid : s.id = f.sample_id)
    (htax : taxKeeps tf o = true) (hctx : ctxKeeps cf s = true) :
    s ∈ matching_samples db tf cf := by
  unfold matching_samples ContextualFilter.applyQ
  rw [(List.perm_insertionSort _ _).mem_iff]
  rw [List.mem_filter]
  refine ⟨?_, hctx⟩
  cases hsub : buildTaxonomySubquery db tf with
  | none =>
    simp only [hsub]
    exact hs
  | some ids =>
    simp only [hsub]
    rw [List.mem_filter]
    refine ⟨hs, ?_⟩
    have hmemids : s.id ∈ ids := by
      rw [hsid]
      exact mem_taxonomy_subquery db tf ids hsub f o hf ho hid htax
    exact List.elem_eq_true_of_mem hmemids

theorem matching_otus_ids_nodup (db : OtuDB) (tf : TaxonomyFilter) (cf : ContextualFilter)
    (hnd : (db.otus.map (fun o => o.id)).Nodup) :
    ((matching_otus db tf cf Option.none).map (fun o => o.id)).Nodup := by
  have hdef : matching_otus db tf cf Option.none =
      List.insertionSort (fun a b => a.id ≤ b.id)
        (tf.applyQ (fun o => o)
          (match buildContextualSubquery db cf with
           | Option.none => db.otus
           | Option.some ids => db.otus.filter (fun o => ids.contains o.id))) := rfl
  rw [hdef]
  have hbase : List.Sublist (match buildContextualSubquery db cf with
      | Option.none => db.otus
      | Option.some ids => db.otus.filter (fun o => ids.contains o.id)) db.otus := by
    cases buildContextualSubquery db cf with
    | none => exact List.Sublist.refl _
    | some ids => exact List.filter_sublist _
  have hpre : List.Sublist (tf.applyQ (fun o => o)
      (match buildContextualSubquery db cf with
       | Option.none => db.otus
       | Option.some ids => db.otus.filter (fun o => ids.contains o.id))) db.otus := by
    rw [applyQ_eq_filter]
    exact (List.filter_sublist _).trans hbase
  have hnd2 : ((tf.applyQ (fun o => o)
      (match buildContextualSubquery db cf with
       | Option.none => db.otus
       | Option.some ids => db.otus.filter (fun o => ids.contains o.id))).map
        (fun o => o.id)).Nodup :=
    List.Nodup.sublist (List.Sublist.map (fun (o : OTURecord) => o.id) hpre) hnd
  exact ((List.perm_insertionSort _ _).map (fun (o : OTURecord) => o.id)).nodup_iff.mpr hnd2

/-- Counterexample to claim C1 as stated: with one OTU, no samples and no
abundance facts (empty filters), the emitted `shape` is `(1, 0)` while
`data` is empty, so `shape[0]` is not the number of distinct OTUs touched
by `data` (which is 0). -/
theorem c1_cex :
    (generate_biom_file (fun _ _ => "") (fun _ => "") []
        (OtuDB.mk [OTURecord.mk 1 "o1" 0 0 0 0 0 0 0 0] [] [] [] [])
        c9_emptyTaxFilter (ContextualFilter.mk CtxMode.conj Option.none [])).shape = (1, 0) ∧
    (generate_biom_file (fun _ _ => "") (fun _ => "") []
        (OtuDB.mk [OTURecord.mk 1 "o1" 0 0 0 0 0 0 0 0] [] [] [] [])
        c9_emptyTaxFilter (ContextualFilter.mk CtxMode.conj Option.none [])).data = [] ∧
    (1 : Nat) ≠ 0 := by
  refine ⟨?_, ?_, by decide⟩
  · decide
  · decide

/-- Amended claim C1: for a database whose OTU ids are unique (primary
keys), `shape` equals `[number of rows emitted, number of columns
emitted]` -- the counts of matching OTUs and of distinct matching
samples, which may exceed the counts touched by `data` -- and every data
triple resolves both indices (`< shape[0]` / `< shape[1]`), so each index
has a corresponding `rows`/`columns` metadata entry. -/
theorem c1_thm (gv : OTURecord → String → String) (fshow : Rat → String)
    (schemaCols : List String) (db : OtuDB) (tf : TaxonomyFilter) (cf : ContextualFilter)
    (hnd : (db.otus.map (fun o => o.id)).Nodup) :
    (generate_biom_file gv fshow schemaCols db tf cf).shape.1 =
        (generate_biom_file gv fshow schemaCols db tf cf).rows.length ∧
      (generate_biom_file gv fshow schemaCols db tf cf).shape.2 =
        (generate_biom_file gv fshow schemaCols db tf cf).columns.length ∧
      (generate_biom_file gv fshow schemaCols db tf cf).shape.1 =
        (matching_otus db tf cf Option.none).length ∧
      (generate_biom_file gv fshow schemaCols db tf cf).shape.2 =
        ((matching_samples db tf cf).map (fun s => s.id)).toFinset.card ∧
      ∀ t ∈ (generate_biom_file gv fshow schemaCols db tf cf).data,
        ∃ r c, t.1 = Option.some r ∧ t.2.1 = Option.some c ∧
          r < (generate_biom_file gv fshow schemaCols db tf cf).shape.1 ∧
          c < (generate_biom_file gv fshow schemaCols db tf cf).shape.2 := by
  have hmnd := matching_otus_ids_nodup db tf cf hnd
  have hrowlen := otuToRow_length (matching_otus db tf cf Option.none) hmnd
  have hscdef : sample_columns fshow schemaCols db tf cf =
      sampleColumnsAux fshow
        (exportFields (schemaCols.filter (fun f => f ≠ "id")) (matching_samples db tf cf))
        (matching_samples db tf cf) [] 0 := rfl
  obtain ⟨hc1, hc2, hc3, hc4, hc5⟩ :=
    sampleColumnsAux_spec fshow
      (exportFields (schemaCols.filter (fun f => f ≠ "id")) (matching_samples db tf cf))
      (matching_samples db tf cf) [] 0 (by simp) rfl
  obtain ⟨hcnd, hcset⟩ := hc5 (by simp)
  have hgdef : generate_biom_file gv fshow schemaCols db tf cf =
      BiomExport.mk (otuRows gv fshow (matching_otus db tf cf Option.none)).1
        (sample_columns fshow schemaCols db tf cf).1
        ((otuRows gv fshow (matching_otus db tf cf Option.none)).2.length,
         (sample_columns fshow schemaCols db tf cf).2.length)
        (abundance_tbl (matching_sample_otus db tf cf)
          (otuRows gv fshow (matching_otus db tf cf Option.none)).2
          (sample_columns fshow schemaCols db tf cf).2) := rfl
  rw [hgdef]
  refine ⟨?_, ?_, ?_, ?_, ?_⟩
  · show (otuRows gv fshow (matching_otus db tf cf Option.none)).2.length =
      (otuRows gv fshow (matching_otus db tf cf Option.none)).1.length
    unfold otuRows
    rw [hrowlen]
    simp
  · show (sample_columns fshow schemaCols db tf cf).2.length =
      (sample_columns fshow schemaCols db tf cf).1.length
    rw [hscdef]
    rw [hc1]
    simp
  · exact hrowlen
  · show (sample_columns fshow schemaCols db tf cf).2.length =
      ((matching_samples db tf cf).map (fun s => s.id)).toFinset.card
    rw [hscdef]
    have hlm : (sampleColumnsAux fshow
        (exportFields (schemaCols.filter (fun f => f ≠ "id")) (matching_samples db tf cf))
        (matching_samples db tf cf) [] 0).2.length =
        ((sampleColumnsAux fshow
        (exportFields (schemaCols.filter (fun f => f ≠ "id")) (matching_samples db tf cf))
        (matching_samples db tf cf) [] 0).2.map (fun e => e.1)).length := by
      simp
    rw [hlm, ← List.toFinset_card_of_nodup hcnd, hcset]
    simp
  · intro t ht
    unfold abundance_tbl at ht
    rw [List.mem_map] at ht
    obtain ⟨u, hu, htu⟩ := ht
    obtain ⟨ho, hf, hs, hid, hsid, htax, hctx⟩ := matching_sample_otus_subset db tf cf u hu
    have hmo : u.1 ∈ matching_otus db tf cf Option.none :=
      mem_matching_otus_intro db tf cf u.1 u.2.1 u.2.2 ho hf hs hid hsid htax hctx
    have hms : u.2.2 ∈ matching_samples db tf cf :=
      mem_matching_samples_intro db tf cf u.1 u.2.1 u.2.2 ho hf hs hid hsid htax hctx
    obtain ⟨i, hlook, hib⟩ :=
      dictLookup_otuToRow (matching_otus db tf cf Option.none) hmnd u.1 hmo
    obtain ⟨c, hlookc, hcb⟩ :=
      dictLookup_lt (sampleColumnsAux fshow
        (exportFields (schemaCols.filter (fun f => f ≠ "id")) (matching_samples db tf cf))
        (matching_samples db tf cf) [] 0).2 u.2.2.id (hc4 u.2.2 hms) hc3
    refine ⟨i, c, ?_, ?_, ?_, ?_⟩
    · rw [← htu]
      show dictLookup (otuRows gv fshow (matching_otus db tf cf Option.none)).2
        u.2.1.otu_id = Option.some i
      unfold otuRows
      rw [← hid]
      exact hlook
    · rw [← htu]
      show dictLookup (sample_columns fshow schemaCols db tf cf).2
        u.2.1.sample_id = Option.some c
      rw [hscdef, ← hsid]
      exact hlookc
    · show i < (otuRows gv fshow (matching_otus db tf cf Option.none)).2.length
      have horow : (otuRows gv fshow (matching_otus db tf cf Option.none)).2 =
          (matching_otus db tf cf Option.none).enum.foldl
            (fun m p => dictInsert m p.2.id p.1) [] := rfl
      rw [horow, hrowlen]
      exact hib
    · show c < (sample_columns fshow schemaCols db tf cf).2.length
      rw [hscdef]
      exact hcb

def c1_db : OtuDB := OtuDB.mk [OTURecord.mk 1 "o1" 0 0 0 0 0 0 0 0] [] [] [] []

def c1_cf : ContextualFilter := ContextualFilter.mk CtxMode.conj Option.none []

/-- Witness for C1 with a concrete one-OTU database. -/
theorem c1_wit :
    (generate_biom_file (fun _ _ => "") (fun _ => "") [] c1_db c9_emptyTaxFilter c1_cf).shape.1 =
        (generate_biom_file (fun _ _ => "") (fun _ => "") [] c1_db c9_emptyTaxFilter
          c1_cf).rows.length ∧
      (generate_biom_file (fun _ _ => "") (fun _ => "") [] c1_db c9_emptyTaxFilter
          c1_cf).shape.2 =
        (generate_biom_file (fun _ _ => "") (fun _ => "") [] c1_db c9_emptyTaxFilter
          c1_cf).columns.length ∧
      (generate_biom_file (fun _ _ => "") (fun _ => "") [] c1_db c9_emptyTaxFilter
          c1_cf).shape.1 =
        (matching_otus c1_db c9_emptyTaxFilter c1_cf Option.none).length ∧
      (generate_biom_file (fun _ _ => "") (fun _ => "") [] c1_db c9_emptyTaxFilter
          c1_cf).shape.2 =
        ((matching_samples c1_db c9_emptyTaxFilter c1_cf).map
          (fun s => s.id)).toFinset.card ∧
      ∀ t ∈ (generate_biom_file (fun _ _ => "") (fun _ => "") [] c1_db c9_emptyTaxFilter
          c1_cf).data,
        ∃ r c, t.1 = Option.some r ∧ t.2.1 = Option.some c ∧
          r < (generate_biom_file (fun _ _ => "") (fun _ => "") [] c1_db c9_emptyTaxFilter
            c1_cf).shape.1 ∧
          c < (generate_biom_file (fun _ _ => "") (fun _ => "") [] c1_db c9_emptyTaxFilter
            c1_cf).shape.2 :=
  c1_thm (fun _ _ => "") (fun _ => "") [] c1_db c9_emptyTaxFilter c1_cf (by decide)

theorem isNoneV_false_iff (v : PyVal) : (!v.isNoneV) = true ↔ v ≠ PyVal.pyNone := by
  cases v <;> simp [PyVal.isNoneV]

theorem exportFields_sorted (allFields : List String) (samples : List SampleRecord) :
    List.Pairwise (fun (a b : String) => a ≤ b) (exportFields allFields samples) := by
  unfold exportFields
  exact List.sorted_insertionSort _ _

theorem mem_exportFields (allFields : List String) (samples : List SampleRecord)
    (fld : String) :
    fld ∈ exportFields allFields samples ↔
      fld ∈ allFields ∧ ∃ s ∈ samples, getContextValue s fld ≠ PyVal.pyNone := by
  unfold exportFields
  rw [(List.perm_insertionSort _ _).mem_iff, List.mem_dedup, List.mem_filter]
  constructor
  · rintro ⟨h1, h2⟩
    obtain ⟨s, hs, hv⟩ := List.any_eq_true.mp h2
    exact ⟨h1, s, hs, (isNoneV_false_iff _).mp hv⟩
  · rintro ⟨h1, s, hs, hv⟩
    exact ⟨h1, List.any_eq_true.mpr ⟨s, hs, (isNoneV_false_iff _).mpr hv⟩⟩

/-- The samples actually emitted by the second pass: first occurrence of
each sample id not already seen. -/
def dedupByIdSeen (seen : List Nat) : List SampleRecord → List SampleRecord
  | [] => []
  | s :: rest =>
    if seen.any (fun x => x == s.id) then dedupByIdSeen seen rest
    else s :: dedupByIdSeen (s.id :: seen) rest

theorem dedupByIdSeen_congr :
    ∀ (samples : List SampleRecord) (seen1 seen2 : List Nat),
      (∀ y, seen1.any (fun x => x == y) = seen2.any (fun x => x == y)) →
      dedupByIdSeen seen1 samples = dedupByIdSeen seen2 samples := by
  intro samples
  induction samples with
  | nil =>
    intro _ _ _
    rfl
  | cons s rest ih =>
    intro seen1 seen2 h
    unfold dedupByIdSeen
    rw [h s.id]
    by_cases hc : seen2.any (fun x => x == s.id) = true
    · simp only [hc, if_true]
      exact ih seen1 seen2 h
    · have hc2 := Bool.eq_false_iff.mpr hc
      simp only [hc2, Bool.false_eq_true, if_false]
      congr 1
      apply ih
      intro y
      rw [List.any_cons, List.any_cons]
      rw [h y]

theorem any_map_general {α β : Type} (f : α → β) (p : β → Bool) :
    ∀ l : List α, (l.map f).any p = l.any (fun x => p (f x)) := by
  intro l
  induction l with
  | nil => rfl
  | cons a t ih => simp [List.any_cons, ih]

theorem sampleColumnsAux_strs (fshow : Rat → String) (fields : List String) :
    ∀ (samples : List SampleRecord) (m : List (Nat × Nat)) (idx : Nat),
      (sampleColumnsAux fshow fields samples m idx).1 =
        (dedupByIdSeen (m.map (fun e => e.1)) samples).map
          (sampleRowStr fshow fields) := by
  intro samples
  induction samples with
  | nil =>
    intro m idx
    rfl
  | cons s rest ih =>
    intro m idx
    by_cases hmem : m.any (fun e => e.1 == s.id) = true
    · have hseen : (m.map (fun e => e.1)).any (fun x => x == s.id) = true := by
        rw [any_map_general]
        exact hmem
      rw [show sampleColumnsAux fshow fields (s :: rest) m idx =
        sampleColumnsAux fshow fields rest m idx from by simp [sampleColumnsAux, hmem]]
      rw [ih m idx]
      rw [show dedupByIdSeen (m.map (fun e => e.1)) (s :: rest) =
        dedupByIdSeen (m.map (fun e => e.1)) rest from by simp [dedupByIdSeen, hseen]]
    · have hfresh := Bool.eq_false_iff.mpr hmem
      have hseen : (m.map (fun e => e.1)).any (fun x => x == s.id) = false := by
        rw [any_map_general]
        exact hfresh
      rw [show sampleColumnsAux fshow fields (s :: rest) m idx =
          (sampleRowStr fshow fields s ::
            (sampleColumnsAux fshow fields rest (dictInsert m s.id idx) (idx + 1)).1,
           (sampleColumnsAux fshow fields rest (dictInsert m s.id idx) (idx + 1)).2)
          from by simp [sampleColumnsAux, hfresh]]
      rw [show dedupByIdSeen (m.map (fun e => e.1)) (s :: rest) =
        s :: dedupByIdSeen (s.id :: m.map (fun e => e.1)) rest from by
          simp [dedupByIdSeen, hseen]]
      rw [List.map_cons]
      show sampleRowStr fshow fields s ::
          (sampleColumnsAux fshow fields rest (dictInsert m s.id idx) (idx + 1)).1 = _
      congr 1
      rw [ih (dictInsert m s.id idx) (idx + 1)]
      have hkeys : (dictInsert m s.id idx).map (fun e => e.1) =
          m.map (fun e => e.1) ++ [s.id] := by
        rw [dictInsert_fresh m s.id idx hfresh]
        simp
      rw [hkeys]
      apply congrArg
      apply dedupByIdSeen_congr
      intro y
      rw [List.any_append, List.any_cons]
      simp [Bool.or_comm]

/-- Claim C7: `sample_columns` first computes, from a full pass over the
matching samples, exactly the set of non-id schema fields having at least
one non-empty (empty string normalized to `None`) value, sorted
alphabetically; it then emits one metadata record per first-encountered
sample id, keyed by exactly that field list, and assigns each sample id a
column at most once. -/
theorem c7_thm (fshow : Rat → String) (schemaCols : List String) (db : OtuDB)
    (tf : TaxonomyFilter) (cf : ContextualFilter) :
    (∀ fld, fld ∈ exportFields (schemaCols.filter (fun f => f ≠ "id"))
        (matching_samples db tf cf) ↔
      (fld ∈ schemaCols ∧ fld ≠ "id" ∧
        ∃ s ∈ matching_samples db tf cf, getContextValue s fld ≠ PyVal.pyNone)) ∧
    List.Pairwise (fun (a b : String) => a ≤ b)
      (exportFields (schemaCols.filter (fun f => f ≠ "id"))
        (matching_samples db tf cf)) ∧
    (sample_columns fshow schemaCols db tf cf).1 =
      (dedupByIdSeen [] (matching_samples db tf cf)).map
        (sampleRowStr fshow
          (exportFields (schemaCols.filter (fun f => f ≠ "id"))
            (matching_samples db tf cf))) ∧
    ((sample_columns fshow schemaCols db tf cf).2.map (fun e => e.1)).Nodup := by
  have hscdef : sample_columns fshow schemaCols db tf cf =
      sampleColumnsAux fshow
        (exportFields (schemaCols.filter (fun f => f ≠ "id")) (matching_samples db tf cf))
        (matching_samples db tf cf) [] 0 := rfl
  refine ⟨?_, exportFields_sorted _ _, ?_, ?_⟩
  · intro fld
    rw [mem_exportFields, List.mem_filter]
    constructor
    · rintro ⟨⟨h1, h2⟩, h3⟩
      exact ⟨h1, by simpa using h2, h3⟩
    · rintro ⟨h1, h2, h3⟩
      exact ⟨⟨h1, by simpa using h2⟩, h3⟩
  · rw [hscdef, sampleColumnsAux_strs]
    rfl
  · rw [hscdef]
    obtain ⟨-, -, -, -, hc5⟩ :=
      sampleColumnsAux_spec fshow
        (exportFields (schemaCols.filter (fun f => f ≠ "id")) (matching_samples db tf cf))
        (matching_samples db tf cf) [] 0 (by simp) rfl
    exact (hc5 (by simp)).1

/-- 32-bit truncation. -/
def w32 (n : Nat) : Nat := n % 4294967296

/-- 32-bit right rotation. -/
def rotr32 (x k : Nat) : Nat := w32 ((x >>> k) ||| (x <<< (32 - k)))

/-- The SHA-256 round constants (FIPS 180-4). -/
def sha256K : List Nat :=
  [1116352408, 1899447441, 3049323471, 3921009573, 961987163,
   1508970993, 2453635748, 2870763221, 3624381080, 310598401,
   607225278, 1426881987, 1925078388, 2162078206, 2614888103,
   3248222580, 3835390401, 4022224774, 264347078, 604807628,
   770255983, 1249150122, 1555081692, 1996064986, 2554220882,
   2821834349, 2952996808, 3210313671, 3336571891, 3584528711,
   113926993, 338241895, 666307205, 773529912, 1294757372,
   1396182291, 1695183700, 1986661051, 2177026350, 2456956037,
   2730485921, 2820302411, 3259730800, 3345764771, 3516065817,
   3600352804, 4094571909, 275423344, 430227734, 506948616,
   659060556, 883997877, 958139571, 1322822218, 1537002063,
   1747873779, 1955562222, 2024104815, 2227730452, 2361852424,
   2428436474, 2756734187, 3204031479, 3329325298]

/-- The SHA-256 initial hash value. -/
def sha256H0 : List Nat :=
  [1779033703, 3144134277, 1013904242, 2773480762,
   1359893119, 2600822924, 528734635, 1541459225]

def bsig0 (x : Nat) : Nat := (rotr32 x 2) ^^^ (rotr32 x 13) ^^^ (rotr32 x 22)

def bsig1 (x : Nat) : Nat := (rotr32 x 6) ^^^ (rotr32 x 11) ^^^ (rotr32 x 25)

def ssig0 (x : Nat) : Nat := (rotr32 x 7) ^^^ (rotr32 x 18) ^^^ (x >>> 3)

def ssig1 (x : Nat) : Nat := (rotr32 x 17) ^^^ (rotr32 x 19) ^^^ (x >>> 10)

/-- The bit length as 8 big-endian bytes. -/
def lengthBytes (n : Nat) : List Nat :=
  [(n >>> 56) % 256, (n >>> 48) % 256, (n >>> 40) % 256, (n >>> 32) % 256,
   (n >>> 24) % 256, (n >>> 16) % 256, (n >>> 8) % 256, n % 256]

/-- SHA-256 message padding to a multiple of 64 bytes. -/
def sha256Pad (msg : List Nat) : List Nat :=
  msg ++ [0x80] ++ List.replicate ((64 + 55 - (msg.length % 64)) % 64) 0 ++
    lengthBytes (8 * msg.length)

/-- Big-endian bytes to 32-bit words. -/
def toWords : List Nat → List Nat
  | b0 :: b1 :: b2 :: b3 :: rest =>
    (b0 * 16777216 + b1 * 65536 + b2 * 256 + b3) :: toWords rest
  | _ => []

/-- Message schedule extension (48 further words). -/
def extendW : Nat → List Nat → List Nat
  | 0, ws => ws
  | k + 1, ws =>
    extendW k (ws ++ [w32 (ws.getD (ws.length - 16) 0 + ssig0 (ws.getD (ws.length - 15) 0) +
      ws.getD (ws.length - 7) 0 + ssig1 (ws.getD (ws.length - 2) 0))])

/-- One SHA-256 compression round. -/
def sha256Round (st : List Nat) (kw : Nat × Nat) : List Nat :=
  match st with
  | [a, b, c, d, e, f, g, h] =>
    [w32 (w32 (h + bsig1 e + ((e &&& f) ^^^ ((e ^^^ 4294967295) &&& g)) + kw.1 + kw.2) +
       w32 (bsig0 a + ((a &&& b) ^^^ (a &&& c) ^^^ (b &&& c)))),
     a, b, c,
     w32 (d + w32 (h + bsig1 e + ((e &&& f) ^^^ ((e ^^^ 4294967295) &&& g)) + kw.1 + kw.2)),
     e, f, g]
  | _ => st

/-- Compression of one 64-byte chunk. -/
def sha256Compress (h : List Nat) (chunk : List Nat) : List Nat :=
  (h.zip ((sha256K.zip (extendW 48 (toWords chunk))).foldl sha256Round h)).map
    (fun p => w32 (p.1 + p.2))

/-- Fold the compression over all 64-byte chunks. -/
def sha256Chunks (h : List Nat) (l : List Nat) : List Nat :=
  if hl : l.isEmpty then h
  else sha256Chunks (sha256Compress h (l.take 64)) (l.drop 64)
termination_by l.length
decreasing_by
  rw [List.length_drop]
  have hne : l ≠ [] := by
    intro hc
    rw [hc] at hl
    exact hl rfl
  have hpos : 0 < l.length := List.length_pos.mpr hne
  omega

def hexChar (n : Nat) : Char := "0123456789abcdef".toList.getD n '0'

def wordHex (n : Nat) : String :=
  String.mk ((List.range 8).map (fun i => hexChar ((n >>> ((7 - i) * 4)) % 16)))

/-- `hashlib.sha256(s.encode('utf8')).hexdigest()`. -/
def sha256hex (s : String) : String :=
  String.join
    ((sha256Chunks sha256H0 (sha256Pad (s.toUTF8.toList.map (fun b => b.toNat)))).map wordHex)

/-- Python `repr()` of a string (quote escaping elided). -/
def pyReprStr (s : String) : String := "\x27" ++ s ++ "\x27"

def pyReprOptNat : Option Nat → String
  | Option.none => "None"
  | Option.some n => toString n

def taxOpStr : TaxOp → String
  | TaxOp.isEq => "is"
  | TaxOp.isNot => "isnot"

/-- `repr()` of an `OrderedDict([('operator', ...), ('value', ...)])`
selector as constructed by the request layer. -/
def pyReprOpVal (ov : OpVal) : String :=
  "OrderedDict([(\x27operator\x27, \x27" ++ taxOpStr ov.operator ++
    "\x27), (\x27value\x27, " ++ pyReprOptNat ov.value ++ ")])"

def pyReprOptOpVal : Option OpVal → String
  | Option.none => "None"
  | Option.some ov => pyReprOpVal ov

/-- `'%s' % state_vector` (a Python list literal of the entries). -/
def pyReprStateVec (l : List (Option OpVal)) : String :=
  "[" ++ String.intercalate ", " (l.map pyReprOptOpVal) ++ "]"

/-- `TaxonomyFilter.__repr__`. -/
def pyReprTaxonomyFilter (tf : TaxonomyFilter) : String :=
  "<TaxonomyFilter(" ++ pyReprOptOpVal tf.amplicon_filter ++ ",state_vec[" ++
    pyReprStateVec tf.state_vector ++ "])>"

def pyReprIntList (l : List Int) : String :=
  "[" ++ String.intercalate ", " (l.map toString) ++ "]"

/-- The `__repr__` of each `ContextualFilterTerm` subclass (`'%s'`
formatting of the payload; `fshow`/`dshow` are Python's `str()` of floats
and dates). -/
def pyReprCtxTerm (fshow : Rat → String) (dshow : Nat × Nat × Nat → String)
    (t : CtxTerm) : String :=
  match t.spec with
  | CtxTermSpec.floatBetween a b =>
    "<TermFloat(" ++ t.field_name ++ "," ++ t.operator ++ "," ++ fshow a ++ "," ++
      fshow b ++ ")>"
  | CtxTermSpec.dateBetween a b =>
    "<TermDate(" ++ t.field_name ++ "," ++ t.operator ++ "," ++ dshow a ++ "," ++
      dshow b ++ ")>"
  | CtxTermSpec.strContains v =>
    "<TermString(" ++ t.field_name ++ "," ++ t.operator ++ "," ++ v ++ ")>"
  | CtxTermSpec.ontoIs v =>
    "<TermOntology(" ++ t.field_name ++ "," ++ t.operator ++ "," ++ toString v ++ ")>"
  | CtxTermSpec.sampleIdIn v =>
    "<TermSampleID(" ++ t.field_name ++ "," ++ t.operator ++ "," ++ pyReprIntList v ++ ")>"

def ctxModeStr : CtxMode → String
  | CtxMode.conj => "and"
  | CtxMode.disj => "or"

/-- `ContextualFilter.__repr__` (the source format string
`'<ContextualFilter(%s,env[%s],[%s]>'` lacks a closing parenthesis;
reproduced faithfully). -/
def pyReprCtxFilter (fshow : Rat → String) (dshow : Nat × Nat × Nat → String)
    (cf : ContextualFilter) : String :=
  "<ContextualFilter(" ++ ctxModeStr cf.mode ++ ",env[" ++
    pyReprOptOpVal cf.environment_filter ++ "],[" ++
    String.intercalate "," (cf.terms.map (pyReprCtxTerm fshow dshow)) ++ "]>"

/-- An argument passed to `make_cache_key`. -/
inductive CacheArg where
  | strA (s : String)
  | taxA (tf : TaxonomyFilter)
  | ctxA (cf : ContextualFilter)

/-- `repr()` of a cache-key argument. -/
def pyReprCacheArg (fshow : Rat → String) (dshow : Nat × Nat × Nat → String) :
    CacheArg → String
  | CacheArg.strA s => pyReprStr s
  | CacheArg.taxA tf => pyReprTaxonomyFilter tf
  | CacheArg.ctxA cf => pyReprCtxFilter fshow dshow cf

/-- `make_cache_key(*args)` from `query.py`: the SHA-256 hex digest of
the dataset generation UUID joined with the `repr()` of each argument by
`':'`. -/
def make_cache_key (fshow : Rat → String) (dshow : Nat × Nat × Nat → String)
    (uuid : String) (args : List CacheArg) : String :=
  sha256hex (uuid ++ ":" ++ String.intercalate ":" (args.map (pyReprCacheArg fshow dshow)))

/-- Two contextual filters with different single terms whose `repr()`
strings collide (a comma inside the field name versus the operator). -/
def c3_cf1 : ContextualFilter :=
  ContextualFilter.mk CtxMode.conj Option.none
    [CtxTerm.mk "a" "b,c" (CtxTermSpec.strContains "d")]

def c3_cf2 : ContextualFilter :=
  ContextualFilter.mk CtxMode.conj Option.none
    [CtxTerm.mk "a,b" "c" (CtxTermSpec.strContains "d")]

/-- Counterexample to claim C3 as stated: the two filters differ in their
term, yet both `repr()` to `<ContextualFilter(and,env[None],
[<TermString(a,b,c,d)>]>`, so their cache keys are identical. -/
theorem c3_cex :
    c3_cf1.terms ≠ c3_cf2.terms ∧
    make_cache_key (fun _ => "") (fun _ => "") "u" [CacheArg.ctxA c3_cf1] =
      make_cache_key (fun _ => "") (fun _ => "") "u" [CacheArg.ctxA c3_cf2] := by
  constructor
  · decide
  · unfold make_cache_key
    have h : ("u" ++ ":" ++ String.intercalate ":"
          ([CacheArg.ctxA c3_cf1].map (pyReprCacheArg (fun _ => "") (fun _ => "")))) =
        ("u" ++ ":" ++ String.intercalate ":"
          ([CacheArg.ctxA c3_cf2].map (pyReprCacheArg (fun _ => "") (fun _ => "")))) := by
      decide
    rw [h]

/-- Amended claim C3: the key is the SHA-256 hex digest of the UUID
joined with the arguments' `repr()` strings, and any two argument lists
with identical `repr()` content (in particular semantically identical
filters, however constructed) yield identical keys; distinct terms yield
distinct keys only insofar as their `repr()` strings differ -- terms with
commas in their fields/operators can collide. -/
theorem c3_thm (fshow : Rat → String) (dshow : Nat × Nat × Nat → String)
    (uuid : String) (args args2 : List CacheArg)
    (h : args.map (pyReprCacheArg fshow dshow) = args2.map (pyReprCacheArg fshow dshow)) :
    make_cache_key fshow dshow uuid args =
      sha256hex (uuid ++ ":" ++
        String.intercalate ":" (args.map (pyReprCacheArg fshow dshow))) ∧
    make_cache_key fshow dshow uuid args = make_cache_key fshow dshow uuid args2 := by
  constructor
  · rfl
  · unfold make_cache_key
    rw [h]

/-- Witness for C3 at concrete arguments. -/
theorem c3_wit :
    make_cache_key (fun _ => "") (fun _ => "") "gen-uuid"
        [CacheArg.strA "TaxonomyOptions.possibilities"] =
      sha256hex ("gen-uuid" ++ ":" ++
        String.intercalate ":" ([CacheArg.strA "TaxonomyOptions.possibilities"].map
          (pyReprCacheArg (fun _ => "") (fun _ => "")))) ∧
    make_cache_key (fun _ => "") (fun _ => "") "gen-uuid"
        [CacheArg.strA "TaxonomyOptions.possibilities"] =
      make_cache_key (fun _ => "") (fun _ => "") "gen-uuid"
        [CacheArg.strA "TaxonomyOptions.possibilities"] :=
  c3_thm (fun _ => "") (fun _ => "") "gen-uuid"
    [CacheArg.strA "TaxonomyOptions.possibilities"]
    [CacheArg.strA "TaxonomyOptions.possibilities"] rfl
